import Mathlib

/-! Decoding of the dev-container manifest (`pkg/devcontainer/config/config.go`)

The Go file declares the manifest `DevContainerConfig`, its nested records and two
union decoders, `StrArray.UnmarshalJSON` and `StrIntArray.UnmarshalJSON`.  All of the
decoding is driven by Go's `encoding/json`, so the development has two layers:

* a model of the part of `encoding/json` that the file exercises: JSON documents, the
  generic decode into `interface{}`, and the typed decode into strings, booleans,
  integers, `json.Number`, slices, maps, structs and `Unmarshaler` values;
* the declarations of `config.go` themselves, field by field and tag by tag.

Raw input bytes are represented by what the scanner of `encoding/json` makes of them:
either a syntax error, or a well-formed document given as a tree in which every number
keeps its literal text.
-/

set_option exponentiation.threshold 4096

namespace DevPod

/-! ## JSON documents -/

/-- A well-formed JSON document.  Strings and object keys are the unquoted texts; a number
is kept as the literal that was written; object members are kept in source order,
duplicate keys included. -/
inductive JSON where
  | null : JSON
  | bool (b : Bool) : JSON
  | num (lit : String) : JSON
  | str (s : String) : JSON
  | arr (elems : List JSON) : JSON
  | obj (members : List (String × JSON)) : JSON

/-- The argument `data []byte` of `json.Unmarshal` and of `UnmarshalJSON`, as the scanner
classifies it (`checkValid`): bytes that are not well-formed JSON, with the scanner's
message, or a well-formed document. -/
inductive Data where
  | malformed (msg : String) : Data
  | doc (v : JSON) : Data

/-! ## Errors -/

/-- The error values that can come out of a decode.
`SyntaxError` is `*json.SyntaxError`; `UnmarshalTypeError` is `*json.UnmarshalTypeError`
with its `Value` and `Type` (offset, struct and field names are left out);
`InvalidNumber` is the `fmt.Errorf("json: invalid number literal, trying to unmarshal %q
into Number", item)` of `literalStore`; `New` is an `errors.New` value. -/
inductive Error where
  | SyntaxError (msg : String) : Error
  | UnmarshalTypeError (value : String) (type : String) : Error
  | InvalidNumber (item : String) : Error
  | New (text : String) : Error
deriving DecidableEq, Repr

/-- Source: `ErrUnsupportedType = errors.New("unsupported type")`. -/
def ErrUnsupportedType : Error := Error.New "unsupported type"

/-! ## Number literals (`encoding/json`, `strconv`) -/

/-- The test `'0' <= c && c <= '9'`. -/
def isDigit (c : Char) : Bool := decide ('0' ≤ c) && decide (c ≤ '9')

/-- The loop `for len(s) > 0 && '0' <= s[0] && s[0] <= '9' { s = s[1:] }`. -/
def skipDigits : List Char → List Char
  | [] => []
  | c :: s => if isDigit c then skipDigits s else c :: s

/-- Last stage of `isValidNumber`: an optional exponent, then the end of the text. -/
def isValidNumber.exponent (s : List Char) : Bool :=
  match s with
  | c :: d :: t =>
    if c == 'e' || c == 'E' then
      if d == '+' || d == '-' then
        (if t == [] then false else skipDigits t == [])
      else skipDigits (d :: t) == []
    else false
  | [_] => false
  | [] => true

/-- Middle stage of `isValidNumber`: an optional `.` followed by one or more digits. -/
def isValidNumber.fraction (s : List Char) : Bool :=
  match s with
  | '.' :: d :: t =>
    if isDigit d then isValidNumber.exponent (skipDigits t)
    else isValidNumber.exponent s
  | _ => isValidNumber.exponent s

/-- Second stage of `isValidNumber`: the integer digits, `0` or `[1-9][0-9]*`. -/
def isValidNumber.digits (s : List Char) : Bool :=
  match s with
  | [] => false
  | c :: t =>
    if c == '0' then isValidNumber.fraction t
    else if decide ('1' ≤ c) && decide (c ≤ '9') then isValidNumber.fraction (skipDigits t)
    else false

/-- The function `isValidNumber` of `encoding/json`: whether the text is a JSON number
literal. -/
def isValidNumber (s : String) : Bool :=
  match s.data with
  | [] => false
  | '-' :: t => isValidNumber.digits t
  | c :: t => isValidNumber.digits (c :: t)

/-- Value of a run of decimal digits, most significant first. -/
def digitsValue : List Char → Nat → Nat
  | [], acc => acc
  | c :: s, acc => digitsValue s (acc * 10 + (c.toNat - '0'.toNat))

/-- The exponent loop of `strconv`: `if e < 10000 { e = e*10 + int(s[i]) - '0' }`. -/
def exponentValue : List Char → Nat → Nat
  | [], e => e
  | c :: s, e => exponentValue s (if e < 10000 then e * 10 + (c.toNat - '0'.toNat) else e)

/-- A number literal read as `mant * 10 ^ exp` (the sign plays no part in the range test). -/
structure Decimal where
  mant : Nat
  exp : Int
deriving DecidableEq, Repr

/-- Reads a JSON number literal: integer digits, fraction digits, exponent. -/
def readDecimal (s : String) : Decimal :=
  let body := match s.data with
    | '-' :: t => t
    | t => t
  let intPart := body.takeWhile isDigit
  let rest := body.dropWhile isDigit
  let fracPart := match rest with
    | '.' :: t => t.takeWhile isDigit
    | _ => []
  let rest := match rest with
    | '.' :: t => t.dropWhile isDigit
    | t => t
  let e : Int := match rest with
    | _ :: '-' :: t => - (exponentValue (t.takeWhile isDigit) 0 : Int)
    | _ :: '+' :: t => (exponentValue (t.takeWhile isDigit) 0 : Int)
    | _ :: t => (exponentValue (t.takeWhile isDigit) 0 : Int)
    | [] => 0
  { mant := digitsValue (intPart ++ fracPart) 0, exp := e - (fracPart.length : Int) }

/-- The least magnitude that does not round to a finite `float64`: `2^1024 - 2^970`, half
an ulp above the largest finite value `2^1024 - 2^971`. -/
def float64Limit : Nat :=
  179769313486231580793728971405303415079934132710037826936173778980444968292764750946649017977587207096330286416692887910946555547851940402630657488671505820681908902000708383676273854845817711531764475730270069855571366959622842914819860834936475292719074168444365510704342711559699508093042880177904174497792

/-- Whether `mant * 10 ^ exp` rounds (to nearest, ties to even) to a finite `float64`, which
is when `strconv.ParseFloat(s, 64)` returns no range error.  The conversion is taken to be
correctly rounded, as `strconv` documents it; the 800-digit buffer of its slow path is not
represented. -/
def Decimal.fitsFloat64 (d : Decimal) : Bool :=
  match d.exp with
  | Int.ofNat e => decide (d.mant * 10 ^ e < float64Limit)
  | Int.negSucc e => decide (d.mant < float64Limit * 10 ^ (e + 1))

/-! ## Go values -/

/-- A Go slice: `nil`, or `elems` (the elements below `len`) followed in the backing array
by `spare` (what lies between `len` and the last element ever written; the rest of the
capacity is zero). -/
inductive Slice (α : Type) where
  | nil : Slice α
  | mk (elems : List α) (spare : List α) : Slice α
deriving DecidableEq, Repr

/-- The elements of a slice; `nil` has none. -/
def Slice.toList {α : Type} : Slice α → List α
  | Slice.nil => []
  | Slice.mk elems _ => elems

/-- A Go map with string keys: `nil`, or its entries (one per key). -/
inductive Map (α : Type) where
  | nil : Map α
  | mk (entries : List (String × α)) : Map α
deriving DecidableEq, Repr

/-- Assignment `m[k] = v` on the entries of a map. -/
def setEntry {α : Type} (k : String) (v : α) : List (String × α) → List (String × α)
  | [] => [(k, v)]
  | (k', v') :: rest => if k' == k then (k, v) :: rest else (k', v') :: setEntry k v rest

/-- A dynamic value held in an `interface{}`.  `float64` stands for the number that
`strconv.ParseFloat` made of the literal it carries; `int` is a Go `int`, which the type
switches of `config.go` test for. -/
inductive Any where
  | nil : Any
  | bool (b : Bool) : Any
  | float64 (lit : String) : Any
  | int (n : Int) : Any
  | string (s : String) : Any
  | slice (xs : List Any) : Any
  | map (entries : List (String × Any)) : Any

/-! ## `encoding/json`: the decode state and the generic decode -/

/-- The part of `decodeState` that outlives a value: the first saved error. -/
structure decodeState where
  savedError : Option Error
deriving DecidableEq, Repr

/-- Source: `saveError`: `if d.savedError == nil { d.savedError = err }`. -/
def decodeState.saveError (d : decodeState) (err : Error) : decodeState :=
  match d.savedError with
  | none => { savedError := some err }
  | some _ => d

/-- Source: `convertNumber` with `useNumber` off: `strconv.ParseFloat(s, 64)`, and an
`UnmarshalTypeError` with `Value: "number " + s` and type `float64` when it fails. -/
def convertNumber (s : String) : Except Error Any :=
  if (readDecimal s).fitsFloat64 then Except.ok (Any.float64 s)
  else Except.error (Error.UnmarshalTypeError ("number " ++ s) "float64")

mutual
/-- Source: `valueInterface`, with `literalInterface`: the decode of a value into an empty
`interface{}`.  A number that `convertNumber` rejects saves the error and yields `nil`. -/
def valueInterface (d : decodeState) : JSON → Any × decodeState
  | JSON.null => (Any.nil, d)
  | JSON.bool b => (Any.bool b, d)
  | JSON.str s => (Any.string s, d)
  | JSON.num lit =>
    match convertNumber lit with
    | Except.ok n => (n, d)
    | Except.error err => (Any.nil, d.saveError err)
  | JSON.arr elems =>
    let r := arrayInterface d elems
    (Any.slice r.1, r.2)
  | JSON.obj members =>
    let r := objectInterface d members []
    (Any.map r.1, r.2)
/-- Source: `arrayInterface`: `v = append(v, d.valueInterface())` for each element. -/
def arrayInterface (d : decodeState) : List JSON → List Any × decodeState
  | [] => ([], d)
  | x :: xs =>
    let r := valueInterface d x
    let rs := arrayInterface r.2 xs
    (r.1 :: rs.1, rs.2)
/-- Source: `objectInterface`: `m[key] = d.valueInterface()` for each member. -/
def objectInterface (d : decodeState) : List (String × JSON) → List (String × Any) →
    List (String × Any) × decodeState
  | [], m => (m, d)
  | (k, x) :: rest, m =>
    let r := valueInterface d x
    objectInterface r.2 rest (setEntry k r.1 m)
end

/-- Source: `json.Unmarshal(data, &jsonObj)` with `var jsonObj interface{}`: the syntax
check first, then the generic decode; the error returned is the saved one.  A top-level
number that is rejected leaves `jsonObj` nil. -/
def json.Unmarshal (data : Data) : Any × Option Error :=
  match data with
  | Data.malformed msg => (Any.nil, some (Error.SyntaxError msg))
  | Data.doc v =>
    let r := valueInterface { savedError := none } v
    (r.1, r.2.savedError)

/-! ## `encoding/json`: the typed decode -/

/-- Outcome of decoding one value into a target of type `α`: the error that aborts the
whole decode, or the target after the value was stored together with the decode state. -/
abbrev Decoded (α : Type) := Except Error (α × decodeState)

/-- Applies a field update to the stored value. -/
def Decoded.map {α β : Type} (f : α → β) : Decoded α → Decoded β
  | Except.error e => Except.error e
  | Except.ok (a, d) => Except.ok (f a, d)

/-- The `Value` that an `UnmarshalTypeError` reports for a document. -/
def JSON.kind : JSON → String
  | JSON.null => "null"
  | JSON.bool _ => "bool"
  | JSON.num _ => "number"
  | JSON.str _ => "string"
  | JSON.arr _ => "array"
  | JSON.obj _ => "object"

/-- The branch `d.saveError(&UnmarshalTypeError{Value: ..., Type: v.Type()})`: the target
is left as it is and the decode goes on. -/
def mismatch {α : Type} (d : decodeState) (item : JSON) (type : String) (v : α) : Decoded α :=
  Except.ok (v, d.saveError (Error.UnmarshalTypeError item.kind type))

/-- Decode into a Go `string`: a JSON string is stored, `null` is ignored, anything else
is a type mismatch. -/
def storeString (d : decodeState) (item : JSON) (v : String) : Decoded String :=
  match item with
  | JSON.str s => Except.ok (s, d)
  | JSON.null => Except.ok (v, d)
  | _ => mismatch d item "string" v

/-- Decode into a Go `bool`. -/
def storeBool (d : decodeState) (item : JSON) (v : Bool) : Decoded Bool :=
  match item with
  | JSON.bool b => Except.ok (b, d)
  | JSON.null => Except.ok (v, d)
  | _ => mismatch d item "bool" v

/-- Source: `strconv.ParseInt(s, 10, 64)`: an optional sign, then decimal digits only, and
the value has to fit 64 bits. -/
def strconv.ParseInt (s : String) : Option Int :=
  let neg := match s.data with
    | '-' :: _ => true
    | _ => false
  let body := match s.data with
    | '-' :: t => t
    | '+' :: t => t
    | t => t
  if body.isEmpty || !(body.all isDigit) then none
  else
    let n := digitsValue body 0
    if neg then (if n ≤ 2 ^ 63 then some (- (n : Int)) else none)
    else (if n < 2 ^ 63 then some (n : Int) else none)

/-- Decode into a Go `int` (64 bits): a number literal goes through `strconv.ParseInt`,
whose failure is reported with `Value: "number " + s`. -/
def storeInt (d : decodeState) (item : JSON) (v : Int) : Decoded Int :=
  match item with
  | JSON.num lit =>
    match strconv.ParseInt lit with
    | some n => Except.ok (n, d)
    | none => Except.ok (v, d.saveError (Error.UnmarshalTypeError ("number " ++ lit) "int"))
  | JSON.null => Except.ok (v, d)
  | _ => mismatch d item "int" v

/-- Source: `type Number string` of `encoding/json`. -/
abbrev json.Number := String

/-- Decode into a `json.Number`: a number literal is stored as written; a JSON string is
stored when `isValidNumber` accepts it and otherwise the decode returns the invalid-number
error at once. -/
def storeNumber (d : decodeState) (item : JSON) (v : json.Number) : Decoded json.Number :=
  match item with
  | JSON.num lit => Except.ok (lit, d)
  | JSON.str s =>
    if isValidNumber s then Except.ok (s, d) else Except.error (Error.InvalidNumber s)
  | JSON.null => Except.ok (v, d)
  | _ => mismatch d item "json.Number" v

/-- Decode into an empty `interface{}` that is the element of a map. -/
def storeInterface (d : decodeState) (item : JSON) (v : Any) : Decoded Any :=
  match item with
  | JSON.null => Except.ok (Any.nil, d)
  | JSON.bool b => Except.ok (Any.bool b, d)
  | JSON.str s => Except.ok (Any.string s, d)
  | JSON.num lit =>
    match convertNumber lit with
    | Except.ok n => Except.ok (n, d)
    | Except.error err => Except.ok (v, d.saveError err)
  | JSON.arr elems =>
    let r := arrayInterface d elems
    Except.ok (Any.slice r.1, r.2)
  | JSON.obj members =>
    let r := objectInterface d members []
    Except.ok (Any.map r.1, r.2)

/-- The element loop of `decodeState.array` on a slice: element `i` is decoded into slot `i`
of the backing array, which holds what an earlier decode left there, or zero. -/
def arrayLoop {α : Type} (store : decodeState → JSON → α → Decoded α) (zero : α) :
    decodeState → List JSON → List α → Decoded (List α)
  | d, [], _ => Except.ok ([], d)
  | d, x :: xs, backing =>
    match store d x (backing.headD zero) with
    | Except.error e => Except.error e
    | Except.ok (y, d1) =>
      match arrayLoop store zero d1 xs backing.tail with
      | Except.error e => Except.error e
      | Except.ok (ys, d2) => Except.ok (y :: ys, d2)

/-- Decode into a slice (`decodeState.array`, and `literalStore` for the literals): an
array fills the slice from index 0 and sets its length, the empty array gives a fresh empty
slice, `null` gives the nil slice. -/
def storeSlice {α : Type} (store : decodeState → JSON → α → Decoded α) (zero : α)
    (type : String) (d : decodeState) (item : JSON) (v : Slice α) : Decoded (Slice α) :=
  match item with
  | JSON.arr [] => Except.ok (Slice.mk [] [], d)
  | JSON.arr (x :: xs) =>
    let backing := match v with
      | Slice.nil => []
      | Slice.mk elems spare => elems ++ spare
    match arrayLoop store zero d (x :: xs) backing with
    | Except.error e => Except.error e
    | Except.ok (ys, d1) => Except.ok (Slice.mk ys (backing.drop (x :: xs).length), d1)
  | JSON.null => Except.ok (Slice.nil, d)
  | _ => mismatch d item type v

/-- The member loop of `decodeState.object` on a map: every value is decoded into a fresh
zero element, which is then assigned under the key. -/
def objectMapLoop {α : Type} (store : decodeState → JSON → α → Decoded α) (zero : α) :
    decodeState → List (String × JSON) → List (String × α) → Decoded (List (String × α))
  | d, [], m => Except.ok (m, d)
  | d, (k, x) :: rest, m =>
    match store d x zero with
    | Except.error e => Except.error e
    | Except.ok (y, d1) => objectMapLoop store zero d1 rest (setEntry k y m)

/-- Decode into a `map[string]T`: an object adds its members to the map (made first when
it is nil), `null` gives the nil map. -/
def storeMap {α : Type} (store : decodeState → JSON → α → Decoded α) (zero : α)
    (type : String) (d : decodeState) (item : JSON) (v : Map α) : Decoded (Map α) :=
  match item with
  | JSON.obj members =>
    let m := match v with
      | Map.nil => []
      | Map.mk entries => entries
    Decoded.map Map.mk (objectMapLoop store zero d members m)
  | JSON.null => Except.ok (Map.nil, d)
  | _ => mismatch d item type v

/-- The member loop of `decodeState.object` on a struct: `step` stores one member. -/
def objectStructLoop {σ : Type} (step : decodeState → String → JSON → σ → Decoded σ) :
    decodeState → List (String × JSON) → σ → Decoded σ
  | d, [], v => Except.ok (v, d)
  | d, (k, x) :: rest, v =>
    match step d k x v with
    | Except.error e => Except.error e
    | Except.ok (v1, d1) => objectStructLoop step d1 rest v1

/-- Decode into a struct: an object is stored member by member, `null` is ignored. -/
def storeStruct {σ : Type} (step : decodeState → String → JSON → σ → Decoded σ)
    (type : String) (d : decodeState) (item : JSON) (v : σ) : Decoded σ :=
  match item with
  | JSON.obj members => objectStructLoop step d members v
  | JSON.null => Except.ok (v, d)
  | _ => mismatch d item type v

/-- Folding of one character of a key for the case-insensitive match: ASCII letters to
upper case, and the two non-ASCII characters that fold to ASCII letters (the long s U+017F
and the Kelvin sign U+212A). -/
def foldRune (c : Char) : Char :=
  if decide ('a' ≤ c) && decide (c ≤ 'z') then Char.ofNat (c.toNat - 32)
  else if c.toNat == 0x17F then 'S'
  else if c.toNat == 0x212A then 'K'
  else c

/-- The case-insensitive comparison of a field name with a key (`equalFold`, `foldName`),
for field names made of ASCII letters. -/
def equalFold (name key : String) : Bool :=
  name.data.map foldRune == key.data.map foldRune

/-- The field that a key selects: an exact match of the name if there is one, else the
first field, in index order, whose name matches case-insensitively. -/
def findField {F : Type} (fields : List F) (name : F → String) (key : String) : Option F :=
  match fields.find? (fun f => name f == key) with
  | some f => some f
  | none => fields.find? (fun f => equalFold (name f) key)

/-- A value with a pointer-receiver `UnmarshalJSON`: the method gets the raw value, also
for `null`, and its error aborts the decode. -/
def storeUnmarshaler {α : Type} (unmarshalJSON : α → Data → α × Option Error)
    (d : decodeState) (item : JSON) (v : α) : Decoded α :=
  match unmarshalJSON v (Data.doc item) with
  | (_, some err) => Except.error err
  | (v1, none) => Except.ok (v1, d)

/-! ## `config.go`: the union decoders -/

/-- Source: `type StrArray []string`. -/
abbrev StrArray := Slice String

/-- Source: `type StrIntArray []string`. -/
abbrev StrIntArray := Slice String

/-- The loop shared by both decoders: `value, ok := v.(string)`, `ErrUnsupportedType`
(here `none`) at the first element that is not a string, `s = append(s, value)`
otherwise. -/
def appendStrings : List Any → List String → Option (List String)
  | [], s => some s
  | Any.string value :: rest, s => appendStrings rest (s ++ [value])
  | _ :: _, _ => none

/-- Source: `strconv.Itoa`. -/
def strconv.Itoa (n : Int) : String := toString n

/-- Source: `func (sa *StrArray) UnmarshalJSON(data []byte) error`.  The receiver before
the call goes in, the receiver after the call and the returned error come out. -/
def StrArray.UnmarshalJSON (sa : StrArray) (data : Data) : StrArray × Option Error :=
  match json.Unmarshal data with
  | (_, some err) => (sa, some err)
  | (jsonObj, none) =>
    match jsonObj with
    | Any.string obj => (Slice.mk [obj] [], none)
    | Any.slice obj =>
      match appendStrings obj [] with
      | none => (sa, some ErrUnsupportedType)
      | some s => (Slice.mk s [], none)
    | _ => (sa, some ErrUnsupportedType)

/-- Source: `func (sa *StrIntArray) UnmarshalJSON(data []byte) error`. -/
def StrIntArray.UnmarshalJSON (sa : StrIntArray) (data : Data) : StrIntArray × Option Error :=
  match json.Unmarshal data with
  | (_, some err) => (sa, some err)
  | (jsonObj, none) =>
    match jsonObj with
    | Any.string obj => (Slice.mk [obj] [], none)
    | Any.int obj => (Slice.mk [strconv.Itoa obj] [], none)
    | Any.slice obj =>
      match appendStrings obj [] with
      | none => (sa, some ErrUnsupportedType)
      | some s => (Slice.mk s [], none)
    | _ => (sa, some ErrUnsupportedType)

/-! ## `config.go`: the records -/

/-- Source: `type PortAttribute struct`. -/
structure PortAttribute where
  OnAutoForward : String
  ElevateIfNeeded : Bool
  Label : String
  RequireLocalPort : Bool
  Protocol : String
deriving DecidableEq, Repr

/-- Source: `type HostRequirements struct`. -/
structure HostRequirements where
  CPUs : Int
  Memory : String
  Storage : String
deriving DecidableEq, Repr

/-- Source: `type BuildOptions struct`. -/
structure BuildOptions where
  Dockerfile : String
  Context : String
  Target : String
  Args : Map String
  CacheFrom : StrArray
deriving DecidableEq, Repr

/-- Source: `type DockerfileContainer struct`. -/
structure DockerfileContainer where
  Dockerfile : String
  Context : String
  Build : BuildOptions
deriving DecidableEq, Repr

/-- Source: `type NonComposeBase struct`. -/
structure NonComposeBase where
  AppPorts : StrIntArray
  ContainerEnv : Map String
  ContainerUser : String
  Mounts : Slice String
  RunArgs : Slice String
  WorkspaceMount : String
deriving DecidableEq, Repr

/-- Source: `type ImageContainer struct`. -/
structure ImageContainer where
  Image : String
deriving DecidableEq, Repr

/-- Source: `type ComposeContainer struct`. -/
structure ComposeContainer where
  DockerComposeFile : StrArray
  Service : String
  RunServices : Slice String
deriving DecidableEq, Repr

/-- Source: `type DevContainerConfig struct`.  The four embedded structs are fields of
their own here; their members are promoted by the field table below. -/
structure DevContainerConfig where
  Name : String
  Features : Map Any
  OverrideFeatureInstallOrder : Slice String
  ForwardPorts : Slice json.Number
  PortsAttributes : Map PortAttribute
  OtherPortsAttributes : Map PortAttribute
  UpdateRemoteUserUID : Bool
  RemoteEnv : Map String
  RemoteUser : String
  InitializeCommand : StrArray
  OnCreateCommand : StrArray
  UpdateContentCommand : StrArray
  PostCreateCommand : StrArray
  PostStartCommand : StrArray
  PostAttachCommand : StrArray
  WaitFor : String
  UserEnvProbe : String
  HostRequirements : HostRequirements
  Customizations : Map Any
  ShutdownAction : String
  OverrideCommand : Bool
  WorkspaceFolder : String
  Settings : Map Any
  Extensions : Slice String
  DevPort : Int
  ImageContainer : ImageContainer
  NonComposeBase : NonComposeBase
  ComposeContainer : ComposeContainer
  DockerfileContainer : DockerfileContainer
  Origin : String

/-- The zero value of `PortAttribute`. -/
def PortAttribute.zero : PortAttribute :=
  { OnAutoForward := "", ElevateIfNeeded := false, Label := "", RequireLocalPort := false,
    Protocol := "" }

/-- The zero value of `HostRequirements`. -/
def HostRequirements.zero : HostRequirements := { CPUs := 0, Memory := "", Storage := "" }

/-- The zero value of `BuildOptions`. -/
def BuildOptions.zero : BuildOptions :=
  { Dockerfile := "", Context := "", Target := "", Args := Map.nil, CacheFrom := Slice.nil }

/-- The zero value of `DevContainerConfig`, as `var config DevContainerConfig` gives it. -/
def DevContainerConfig.zero : DevContainerConfig :=
  { Name := "", Features := Map.nil, OverrideFeatureInstallOrder := Slice.nil,
    ForwardPorts := Slice.nil, PortsAttributes := Map.nil, OtherPortsAttributes := Map.nil,
    UpdateRemoteUserUID := false, RemoteEnv := Map.nil, RemoteUser := "",
    InitializeCommand := Slice.nil, OnCreateCommand := Slice.nil,
    UpdateContentCommand := Slice.nil, PostCreateCommand := Slice.nil,
    PostStartCommand := Slice.nil, PostAttachCommand := Slice.nil,
    WaitFor := "", UserEnvProbe := "", HostRequirements := HostRequirements.zero,
    Customizations := Map.nil, ShutdownAction := "", OverrideCommand := false,
    WorkspaceFolder := "", Settings := Map.nil, Extensions := Slice.nil, DevPort := 0,
    ImageContainer := { Image := "" },
    NonComposeBase := { AppPorts := Slice.nil, ContainerEnv := Map.nil, ContainerUser := "",
                        Mounts := Slice.nil, RunArgs := Slice.nil, WorkspaceMount := "" },
    ComposeContainer := { DockerComposeFile := Slice.nil, Service := "",
                          RunServices := Slice.nil },
    DockerfileContainer := { Dockerfile := "", Context := "", Build := BuildOptions.zero },
    Origin := "" }

/-! ## `config.go`: the struct tags -/

/-- The fields of `PortAttribute` that have a wire name. -/
inductive PortAttribute.Field where
  | OnAutoForward | ElevateIfNeeded | Label | RequireLocalPort | Protocol
deriving DecidableEq, Repr

/-- The `json` tag names of `PortAttribute`. -/
def PortAttribute.Field.wire : PortAttribute.Field → String
  | OnAutoForward => "onAutoForward"
  | ElevateIfNeeded => "elevateIfNeeded"
  | Label => "label"
  | RequireLocalPort => "requireLocalPort"
  | Protocol => "protocol"

/-- The fields of `PortAttribute` in index order. -/
def PortAttribute.fields : List PortAttribute.Field :=
  [.OnAutoForward, .ElevateIfNeeded, .Label, .RequireLocalPort, .Protocol]

/-- The fields of `HostRequirements` that have a wire name. -/
inductive HostRequirements.Field where
  | CPUs | Memory | Storage
deriving DecidableEq, Repr

/-- The `json` tag names of `HostRequirements`. -/
def HostRequirements.Field.wire : HostRequirements.Field → String
  | CPUs => "cpus"
  | Memory => "memory"
  | Storage => "storage"

/-- The fields of `HostRequirements` in index order. -/
def HostRequirements.fields : List HostRequirements.Field := [.CPUs, .Memory, .Storage]

/-- The fields of `BuildOptions` that have a wire name. -/
inductive BuildOptions.Field where
  | Dockerfile | Context | Target | Args | CacheFrom
deriving DecidableEq, Repr

/-- The `json` tag names of `BuildOptions`. -/
def BuildOptions.Field.wire : BuildOptions.Field → String
  | Dockerfile => "dockerfile"
  | Context => "context"
  | Target => "target"
  | Args => "args"
  | CacheFrom => "cacheFrom"

/-- The fields of `BuildOptions` in index order. -/
def BuildOptions.fields : List BuildOptions.Field :=
  [.Dockerfile, .Context, .Target, .Args, .CacheFrom]

/-- The fields of `DevContainerConfig` that have a wire name: its own, and those of the
four embedded structs, whose tag `json:",inline"` gives no name, so that their members are
promoted.  `Origin`, tagged `json:"-"`, is not among them. -/
inductive Field where
  | Name | Features | OverrideFeatureInstallOrder | ForwardPorts | PortsAttributes
  | OtherPortsAttributes | UpdateRemoteUserUID | RemoteEnv | RemoteUser
  | InitializeCommand | OnCreateCommand | UpdateContentCommand | PostCreateCommand
  | PostStartCommand | PostAttachCommand | WaitFor | UserEnvProbe | HostRequirements
  | Customizations | ShutdownAction | OverrideCommand | WorkspaceFolder | Settings
  | Extensions | DevPort
  | Image
  | AppPorts | ContainerEnv | ContainerUser | Mounts | RunArgs | WorkspaceMount
  | DockerComposeFile | Service | RunServices
  | Dockerfile | Context | Build
deriving DecidableEq, Repr

/-- The `json` tag names of `DevContainerConfig` and of its embedded structs. -/
def Field.wire : Field → String
  | Name => "name"
  | Features => "features"
  | OverrideFeatureInstallOrder => "overrideFeatureInstallOrder"
  | ForwardPorts => "forwardPorts"
  | PortsAttributes => "portAttributes"
  | OtherPortsAttributes => "otherPortsAttributes"
  | UpdateRemoteUserUID => "updateRemoteUserUID"
  | RemoteEnv => "remoteEnv"
  | RemoteUser => "remoteUser"
  | InitializeCommand => "initializeCommand"
  | OnCreateCommand => "onCreateCommand"
  | UpdateContentCommand => "updateContentCommand"
  | PostCreateCommand => "postCreateCommand"
  | PostStartCommand => "postStartCommand"
  | PostAttachCommand => "postAttachCommand"
  | WaitFor => "waitFor"
  | UserEnvProbe => "userEnvProbe"
  | HostRequirements => "hostRequirements"
  | Customizations => "customizations"
  | ShutdownAction => "shutdownAction"
  | OverrideCommand => "overrideCommand"
  | WorkspaceFolder => "workspaceFolder"
  | Settings => "settings"
  | Extensions => "extensions"
  | DevPort => "devPort"
  | Image => "image"
  | AppPorts => "appPorts"
  | ContainerEnv => "containerEnv"
  | ContainerUser => "containerUser"
  | Mounts => "mounts"
  | RunArgs => "runArgs"
  | WorkspaceMount => "workspaceMount"
  | DockerComposeFile => "dockerComposeFile"
  | Service => "string"
  | RunServices => "runServices"
  | Dockerfile => "dockerFile"
  | Context => "context"
  | Build => "build"

/-- The fields of `DevContainerConfig` in index order. -/
def fields : List Field :=
  [.Name, .Features, .OverrideFeatureInstallOrder, .ForwardPorts, .PortsAttributes,
   .OtherPortsAttributes, .UpdateRemoteUserUID, .RemoteEnv, .RemoteUser,
   .InitializeCommand, .OnCreateCommand, .UpdateContentCommand, .PostCreateCommand,
   .PostStartCommand, .PostAttachCommand, .WaitFor, .UserEnvProbe, .HostRequirements,
   .Customizations, .ShutdownAction, .OverrideCommand, .WorkspaceFolder, .Settings,
   .Extensions, .DevPort, .Image, .AppPorts, .ContainerEnv, .ContainerUser, .Mounts,
   .RunArgs, .WorkspaceMount, .DockerComposeFile, .Service, .RunServices, .Dockerfile,
   .Context, .Build]

/-! ## `config.go`: the decode of each record -/

/-- Stores one member of a JSON object into a `PortAttribute`; a key that selects no field
is skipped. -/
def PortAttribute.step (d : decodeState) (key : String) (x : JSON) (v : PortAttribute) :
    Decoded PortAttribute :=
  match findField PortAttribute.fields PortAttribute.Field.wire key with
  | none => Except.ok (v, d)
  | some .OnAutoForward =>
    (storeString d x v.OnAutoForward).map fun y => { v with OnAutoForward := y }
  | some .ElevateIfNeeded =>
    (storeBool d x v.ElevateIfNeeded).map fun y => { v with ElevateIfNeeded := y }
  | some .Label => (storeString d x v.Label).map fun y => { v with Label := y }
  | some .RequireLocalPort =>
    (storeBool d x v.RequireLocalPort).map fun y => { v with RequireLocalPort := y }
  | some .Protocol => (storeString d x v.Protocol).map fun y => { v with Protocol := y }

/-- Decode into a `PortAttribute`. -/
def PortAttribute.store : decodeState → JSON → PortAttribute → Decoded PortAttribute :=
  storeStruct PortAttribute.step "config.PortAttribute"

/-- Stores one member of a JSON object into a `HostRequirements`. -/
def HostRequirements.step (d : decodeState) (key : String) (x : JSON) (v : HostRequirements) :
    Decoded HostRequirements :=
  match findField HostRequirements.fields HostRequirements.Field.wire key with
  | none => Except.ok (v, d)
  | some .CPUs => (storeInt d x v.CPUs).map fun y => { v with CPUs := y }
  | some .Memory => (storeString d x v.Memory).map fun y => { v with Memory := y }
  | some .Storage => (storeString d x v.Storage).map fun y => { v with Storage := y }

/-- Decode into a `HostRequirements`. -/
def HostRequirements.store :
    decodeState → JSON → HostRequirements → Decoded HostRequirements :=
  storeStruct HostRequirements.step "config.HostRequirements"

/-- Stores one member of a JSON object into a `BuildOptions`. -/
def BuildOptions.step (d : decodeState) (key : String) (x : JSON) (v : BuildOptions) :
    Decoded BuildOptions :=
  match findField BuildOptions.fields BuildOptions.Field.wire key with
  | none => Except.ok (v, d)
  | some .Dockerfile => (storeString d x v.Dockerfile).map fun y => { v with Dockerfile := y }
  | some .Context => (storeString d x v.Context).map fun y => { v with Context := y }
  | some .Target => (storeString d x v.Target).map fun y => { v with Target := y }
  | some .Args =>
    (storeMap storeString "" "map[string]string" d x v.Args).map fun y => { v with Args := y }
  | some .CacheFrom =>
    (storeUnmarshaler StrArray.UnmarshalJSON d x v.CacheFrom).map
      fun y => { v with CacheFrom := y }

/-- Decode into a `BuildOptions`. -/
def BuildOptions.store : decodeState → JSON → BuildOptions → Decoded BuildOptions :=
  storeStruct BuildOptions.step "config.BuildOptions"

/-- Stores the value of one field of `DevContainerConfig`, by the Go type of the field. -/
def DevContainerConfig.storeField (f : Field) (d : decodeState) (x : JSON)
    (v : DevContainerConfig) : Decoded DevContainerConfig :=
  match f with
  | .Name => (storeString d x v.Name).map fun y => { v with Name := y }
  | .Features =>
    (storeMap storeInterface Any.nil "map[string]interface {}" d x v.Features).map
      fun y => { v with Features := y }
  | .OverrideFeatureInstallOrder =>
    (storeSlice storeString "" "[]string" d x v.OverrideFeatureInstallOrder).map
      fun y => { v with OverrideFeatureInstallOrder := y }
  | .ForwardPorts =>
    (storeSlice storeNumber "" "[]json.Number" d x v.ForwardPorts).map
      fun y => { v with ForwardPorts := y }
  | .PortsAttributes =>
    (storeMap PortAttribute.store PortAttribute.zero "map[string]config.PortAttribute" d x
      v.PortsAttributes).map fun y => { v with PortsAttributes := y }
  | .OtherPortsAttributes =>
    (storeMap PortAttribute.store PortAttribute.zero "map[string]config.PortAttribute" d x
      v.OtherPortsAttributes).map fun y => { v with OtherPortsAttributes := y }
  | .UpdateRemoteUserUID =>
    (storeBool d x v.UpdateRemoteUserUID).map fun y => { v with UpdateRemoteUserUID := y }
  | .RemoteEnv =>
    (storeMap storeString "" "map[string]string" d x v.RemoteEnv).map
      fun y => { v with RemoteEnv := y }
  | .RemoteUser => (storeString d x v.RemoteUser).map fun y => { v with RemoteUser := y }
  | .InitializeCommand =>
    (storeUnmarshaler StrArray.UnmarshalJSON d x v.InitializeCommand).map
      fun y => { v with InitializeCommand := y }
  | .OnCreateCommand =>
    (storeUnmarshaler StrArray.UnmarshalJSON d x v.OnCreateCommand).map
      fun y => { v with OnCreateCommand := y }
  | .UpdateContentCommand =>
    (storeUnmarshaler StrArray.UnmarshalJSON d x v.UpdateContentCommand).map
      fun y => { v with UpdateContentCommand := y }
  | .PostCreateCommand =>
    (storeUnmarshaler StrArray.UnmarshalJSON d x v.PostCreateCommand).map
      fun y => { v with PostCreateCommand := y }
  | .PostStartCommand =>
    (storeUnmarshaler StrArray.UnmarshalJSON d x v.PostStartCommand).map
      fun y => { v with PostStartCommand := y }
  | .PostAttachCommand =>
    (storeUnmarshaler StrArray.UnmarshalJSON d x v.PostAttachCommand).map
      fun y => { v with PostAttachCommand := y }
  | .WaitFor => (storeString d x v.WaitFor).map fun y => { v with WaitFor := y }
  | .UserEnvProbe => (storeString d x v.UserEnvProbe).map fun y => { v with UserEnvProbe := y }
  | .HostRequirements =>
    (HostRequirements.store d x v.HostRequirements).map
      fun y => { v with HostRequirements := y }
  | .Customizations =>
    (storeMap storeInterface Any.nil "map[string]interface {}" d x v.Customizations).map
      fun y => { v with Customizations := y }
  | .ShutdownAction =>
    (storeString d x v.ShutdownAction).map fun y => { v with ShutdownAction := y }
  | .OverrideCommand =>
    (storeBool d x v.OverrideCommand).map fun y => { v with OverrideCommand := y }
  | .WorkspaceFolder =>
    (storeString d x v.WorkspaceFolder).map fun y => { v with WorkspaceFolder := y }
  | .Settings =>
    (storeMap storeInterface Any.nil "map[string]interface {}" d x v.Settings).map
      fun y => { v with Settings := y }
  | .Extensions =>
    (storeSlice storeString "" "[]string" d x v.Extensions).map
      fun y => { v with Extensions := y }
  | .DevPort => (storeInt d x v.DevPort).map fun y => { v with DevPort := y }
  | .Image =>
    (storeString d x v.ImageContainer.Image).map
      fun y => { v with ImageContainer := { v.ImageContainer with Image := y } }
  | .AppPorts =>
    (storeUnmarshaler StrIntArray.UnmarshalJSON d x v.NonComposeBase.AppPorts).map
      fun y => { v with NonComposeBase := { v.NonComposeBase with AppPorts := y } }
  | .ContainerEnv =>
    (storeMap storeString "" "map[string]string" d x v.NonComposeBase.ContainerEnv).map
      fun y => { v with NonComposeBase := { v.NonComposeBase with ContainerEnv := y } }
  | .ContainerUser =>
    (storeString d x v.NonComposeBase.ContainerUser).map
      fun y => { v with NonComposeBase := { v.NonComposeBase with ContainerUser := y } }
  | .Mounts =>
    (storeSlice storeString "" "[]string" d x v.NonComposeBase.Mounts).map
      fun y => { v with NonComposeBase := { v.NonComposeBase with Mounts := y } }
  | .RunArgs =>
    (storeSlice storeString "" "[]string" d x v.NonComposeBase.RunArgs).map
      fun y => { v with NonComposeBase := { v.NonComposeBase with RunArgs := y } }
  | .WorkspaceMount =>
    (storeString d x v.NonComposeBase.WorkspaceMount).map
      fun y => { v with NonComposeBase := { v.NonComposeBase with WorkspaceMount := y } }
  | .DockerComposeFile =>
    (storeUnmarshaler StrArray.UnmarshalJSON d x v.ComposeContainer.DockerComposeFile).map
      fun y => { v with ComposeContainer := { v.ComposeContainer with DockerComposeFile := y } }
  | .Service =>
    (storeString d x v.ComposeContainer.Service).map
      fun y => { v with ComposeContainer := { v.ComposeContainer with Service := y } }
  | .RunServices =>
    (storeSlice storeString "" "[]string" d x v.ComposeContainer.RunServices).map
      fun y => { v with ComposeContainer := { v.ComposeContainer with RunServices := y } }
  | .Dockerfile =>
    (storeString d x v.DockerfileContainer.Dockerfile).map
      fun y => { v with DockerfileContainer := { v.DockerfileContainer with Dockerfile := y } }
  | .Context =>
    (storeString d x v.DockerfileContainer.Context).map
      fun y => { v with DockerfileContainer := { v.DockerfileContainer with Context := y } }
  | .Build =>
    (BuildOptions.store d x v.DockerfileContainer.Build).map
      fun y => { v with DockerfileContainer := { v.DockerfileContainer with Build := y } }

/-- Stores one member of the manifest object: the key selects a field, whose value is then
decoded; the value of a key that selects no field is skipped. -/
def DevContainerConfig.step (d : decodeState) (key : String) (x : JSON)
    (v : DevContainerConfig) : Decoded DevContainerConfig :=
  match findField fields Field.wire key with
  | none => Except.ok (v, d)
  | some f => DevContainerConfig.storeField f d x v

/-- Decode into a `DevContainerConfig`. -/
def DevContainerConfig.store :
    decodeState → JSON → DevContainerConfig → Decoded DevContainerConfig :=
  storeStruct DevContainerConfig.step "config.DevContainerConfig"

/-- Source: `json.Unmarshal(data, &config)` with `config` a `DevContainerConfig` holding
`v`: the syntax check, then the decode; an error that aborted the decode is returned, else
the first saved error, else the decode succeeded and the manifest is the result.  What a
failed decode leaves in `config` is not represented. -/
def json.UnmarshalConfig (data : Data) (v : DevContainerConfig) :
    Except Error DevContainerConfig :=
  match data with
  | Data.malformed msg => Except.error (Error.SyntaxError msg)
  | Data.doc item =>
    match DevContainerConfig.store { savedError := none } item v with
    | Except.error err => Except.error err
    | Except.ok (v1, d) =>
      match d.savedError with
      | some err => Except.error err
      | none => Except.ok v1

/-- Decoding a manifest from its bytes into a fresh `DevContainerConfig`. -/
def decodeManifest (data : Data) : Except Error DevContainerConfig :=
  json.UnmarshalConfig data DevContainerConfig.zero

/-! ## Predicates on documents used in the statements -/

/-- Whether a document is a JSON string. -/
def JSON.isStr : JSON → Bool
  | JSON.str _ => true
  | _ => false

/-- Whether a document is a JSON array. -/
def JSON.isArr : JSON → Bool
  | JSON.arr _ => true
  | _ => false

mutual
/-- Whether every number literal of a document is in the range of `float64`. -/
def JSON.floatsFit : JSON → Bool
  | JSON.null => true
  | JSON.bool _ => true
  | JSON.str _ => true
  | JSON.num lit => (readDecimal lit).fitsFloat64
  | JSON.arr elems => floatsFitList elems
  | JSON.obj members => floatsFitMembers members
/-- The same for the elements of an array. -/
def floatsFitList : List JSON → Bool
  | [] => true
  | x :: xs => x.floatsFit && floatsFitList xs
/-- The same for the members of an object. -/
def floatsFitMembers : List (String × JSON) → Bool
  | [] => true
  | (_, x) :: rest => x.floatsFit && floatsFitMembers rest
end

/-- The fields of the manifest whose Go type is `StrArray`. -/
def Field.isStrArray : Field → Bool
  | .InitializeCommand | .OnCreateCommand | .UpdateContentCommand | .PostCreateCommand
  | .PostStartCommand | .PostAttachCommand | .DockerComposeFile => true
  | _ => false

/-- The fields of the manifest whose Go type is `StrIntArray`. -/
def Field.isStrIntArray : Field → Bool
  | .AppPorts => true
  | _ => false

/-- The six lifecycle command fields of the manifest. -/
def Field.isLifecycle : Field → Bool
  | .InitializeCommand | .OnCreateCommand | .UpdateContentCommand | .PostCreateCommand
  | .PostStartCommand | .PostAttachCommand => true
  | _ => false

/-- The command that a lifecycle field of a manifest holds. -/
def DevContainerConfig.command (v : DevContainerConfig) : Field → StrArray
  | .InitializeCommand => v.InitializeCommand
  | .OnCreateCommand => v.OnCreateCommand
  | .UpdateContentCommand => v.UpdateContentCommand
  | .PostCreateCommand => v.PostCreateCommand
  | .PostStartCommand => v.PostStartCommand
  | .PostAttachCommand => v.PostAttachCommand
  | _ => Slice.nil

/-- The errors that the decode of a well-formed document can end with: `ErrUnsupportedType`,
an `UnmarshalTypeError`, or the invalid-number error. -/
def Error.Known (e : Error) : Prop :=
  e = ErrUnsupportedType ∨ (∃ value type, e = Error.UnmarshalTypeError value type) ∨
    ∃ item, e = Error.InvalidNumber item

/-- A decode state whose saved error, if any, is one of those. -/
def decodeState.Known (d : decodeState) : Prop :=
  ∀ e, d.savedError = some e → e.Known

/-- An outcome whose aborting error, or whose saved error, is one of those. -/
def Decoded.Known {α : Type} (r : Decoded α) : Prop :=
  match r with
  | Except.error e => e.Known
  | Except.ok (_, d) => d.Known

/-- A decode function that keeps to those errors. -/
def StoreKnown {α : Type} (store : decodeState → JSON → α → Decoded α) : Prop :=
  ∀ d x v, d.Known → (store d x v).Known

/-! ## Lemmas on the generic decode -/

/-- The range limit is `2^1024 - 2^970`. -/
theorem float64Limit_eq : float64Limit = 2 ^ 1024 - 2 ^ 970 := by
  norm_num [float64Limit]

mutual
/-- A document whose numbers are all in range is decoded without saving an error. -/
theorem valueInterface_state : ∀ (v : JSON) (d : decodeState), v.floatsFit = true →
    (valueInterface d v).2 = d
  | JSON.null, d, _ => by simp [valueInterface]
  | JSON.bool _, d, _ => by simp [valueInterface]
  | JSON.str _, d, _ => by simp [valueInterface]
  | JSON.num lit, d, h => by
    simp only [JSON.floatsFit] at h
    simp [valueInterface, convertNumber, h]
  | JSON.arr elems, d, h => by
    simp only [JSON.floatsFit] at h
    simp [valueInterface, arrayInterface_state elems d h]
  | JSON.obj members, d, h => by
    simp only [JSON.floatsFit] at h
    simp [valueInterface, objectInterface_state members d [] h]
/-- The same for the elements of an array. -/
theorem arrayInterface_state : ∀ (xs : List JSON) (d : decodeState), floatsFitList xs = true →
    (arrayInterface d xs).2 = d
  | [], d, _ => by simp [arrayInterface]
  | x :: xs, d, h => by
    simp only [floatsFitList, Bool.and_eq_true] at h
    simp [arrayInterface, valueInterface_state x d h.1, arrayInterface_state xs d h.2]
/-- The same for the members of an object. -/
theorem objectInterface_state : ∀ (ms : List (String × JSON)) (d : decodeState)
    (m : List (String × Any)), floatsFitMembers ms = true → (objectInterface d ms m).2 = d
  | [], d, m, _ => by simp [objectInterface]
  | (k, x) :: rest, d, m, h => by
    simp only [floatsFitMembers, Bool.and_eq_true] at h
    simp [objectInterface, valueInterface_state x d h.1,
      objectInterface_state rest d _ h.2]
end

/-- The generic decode yields a Go string only for a JSON string. -/
theorem valueInterface_string (d : decodeState) (x : JSON) (s : String)
    (h : (valueInterface d x).1 = Any.string s) : x = JSON.str s := by
  cases x with
  | null => simp [valueInterface] at h
  | bool b => simp [valueInterface] at h
  | str t => simpa [valueInterface] using h
  | num lit =>
    by_cases hf : (readDecimal lit).fitsFloat64 = true <;>
      simp [valueInterface, convertNumber, hf] at h
  | arr elems => simp [valueInterface] at h
  | obj members => simp [valueInterface] at h

/-- The generic decode yields a slice only for a JSON array. -/
theorem valueInterface_slice (d : decodeState) (x : JSON) (l : List Any)
    (h : (valueInterface d x).1 = Any.slice l) : x.isArr = true := by
  cases x with
  | null => simp [valueInterface] at h
  | bool b => simp [valueInterface] at h
  | str t => simp [valueInterface] at h
  | num lit =>
    by_cases hf : (readDecimal lit).fitsFloat64 = true <;>
      simp [valueInterface, convertNumber, hf] at h
  | arr elems => rfl
  | obj members => simp [valueInterface] at h

/-- The generic decode never yields a Go `int`: a number becomes a `float64`. -/
theorem valueInterface_ne_int (d : decodeState) (x : JSON) (n : Int) :
    (valueInterface d x).1 ≠ Any.int n := by
  cases x with
  | null => simp [valueInterface]
  | bool b => simp [valueInterface]
  | str t => simp [valueInterface]
  | num lit =>
    by_cases hf : (readDecimal lit).fitsFloat64 = true <;>
      simp [valueInterface, convertNumber, hf]
  | arr elems => simp [valueInterface]
  | obj members => simp [valueInterface]

/-- An array of JSON strings is decoded to the slice of those strings, no error saved. -/
theorem arrayInterface_strings (d : decodeState) (ss : List String) :
    arrayInterface d (ss.map JSON.str) = (ss.map Any.string, d) := by
  induction ss with
  | nil => simp [arrayInterface]
  | cons s ss ih => simp [arrayInterface, valueInterface, ih]

/-- The loop over a slice of strings appends all of them, in order. -/
theorem appendStrings_strings (ss acc : List String) :
    appendStrings (ss.map Any.string) acc = some (acc ++ ss) := by
  induction ss generalizing acc with
  | nil => simp [appendStrings]
  | cons s ss ih => simp [appendStrings, ih]

/-- The loop stops with `ErrUnsupportedType` when some element is not a string. -/
theorem appendStrings_none (l : List Any) (acc : List String)
    (h : ∃ a ∈ l, ∀ s, a ≠ Any.string s) : appendStrings l acc = none := by
  induction l generalizing acc with
  | nil => simp at h
  | cons a l ih =>
    cases a with
    | string t =>
      obtain ⟨b, hb, hne⟩ := h
      rcases List.mem_cons.1 hb with rfl | hb
      · exact absurd rfl (hne t)
      · simpa [appendStrings] using ih _ ⟨b, hb, hne⟩
    | _ => simp [appendStrings]

/-- An array with an element that is not a string is decoded to a slice with an element
that is not a string. -/
theorem arrayInterface_nonString (xs : List JSON) (d : decodeState)
    (h : ∃ x ∈ xs, x.isStr = false) :
    ∃ a ∈ (arrayInterface d xs).1, ∀ s, a ≠ Any.string s := by
  induction xs generalizing d with
  | nil => simp at h
  | cons x xs ih =>
    obtain ⟨y, hy, hns⟩ := h
    rcases List.mem_cons.1 hy with rfl | hy
    · refine ⟨(valueInterface d y).1, by simp [arrayInterface], ?_⟩
      intro s hs
      have := valueInterface_string d y s hs
      subst this
      simp [JSON.isStr] at hns
    · obtain ⟨a, ha, hne⟩ := ih (valueInterface d x).2 ⟨y, hy, hns⟩
      exact ⟨a, by simp [arrayInterface, ha], hne⟩

/-! ## Lemmas on the union decoders -/

/-- On an array with an element that is not a string, `StrArray.UnmarshalJSON` returns an
error and leaves the receiver: the parser's own error if it has one, else
`ErrUnsupportedType`. -/
theorem StrArray_array_nonString (sa : StrArray) (xs : List JSON)
    (h : ∃ x ∈ xs, x.isStr = false) :
    StrArray.UnmarshalJSON sa (Data.doc (JSON.arr xs)) =
      (sa, some (((arrayInterface { savedError := none } xs).2.savedError).getD
        ErrUnsupportedType)) := by
  have hn := appendStrings_none _ [] (arrayInterface_nonString xs { savedError := none } h)
  simp only [StrArray.UnmarshalJSON, json.Unmarshal, valueInterface]
  cases hs : (arrayInterface { savedError := none } xs).2.savedError with
  | none => simp [hn]
  | some err => simp

/-- The same for `StrIntArray.UnmarshalJSON`. -/
theorem StrIntArray_array_nonString (sa : StrIntArray) (xs : List JSON)
    (h : ∃ x ∈ xs, x.isStr = false) :
    StrIntArray.UnmarshalJSON sa (Data.doc (JSON.arr xs)) =
      (sa, some (((arrayInterface { savedError := none } xs).2.savedError).getD
        ErrUnsupportedType)) := by
  have hn := appendStrings_none _ [] (arrayInterface_nonString xs { savedError := none } h)
  simp only [StrIntArray.UnmarshalJSON, json.Unmarshal, valueInterface]
  cases hs : (arrayInterface { savedError := none } xs).2.savedError with
  | none => simp [hn]
  | some err => simp

/-- On a document that is neither a string nor an array, `StrArray.UnmarshalJSON` returns
an error and leaves the receiver. -/
theorem StrArray_other (sa : StrArray) (v : JSON) (hs : v.isStr = false)
    (ha : v.isArr = false) :
    StrArray.UnmarshalJSON sa (Data.doc v) =
      (sa, some (((valueInterface { savedError := none } v).2.savedError).getD
        ErrUnsupportedType)) := by
  simp only [StrArray.UnmarshalJSON, json.Unmarshal]
  cases he : (valueInterface { savedError := none } v).2.savedError with
  | some err => simp
  | none =>
    cases hv : (valueInterface { savedError := none } v).1 with
    | string t =>
      have := valueInterface_string _ v t hv
      subst this
      simp [JSON.isStr] at hs
    | slice l =>
      have := valueInterface_slice _ v l hv
      simp [ha] at this
    | _ => simp

/-! ## Lemmas on the decode of the manifest -/

/-- A member whose store fails in every state makes the decode of the object fail. -/
theorem objectStructLoop_abort {σ : Type}
    (step : decodeState → String → JSON → σ → Decoded σ) (k : String) (x : JSON)
    (habort : ∀ d v, ∃ e, step d k x v = Except.error e) :
    ∀ (members : List (String × JSON)) (d : decodeState) (v : σ), (k, x) ∈ members →
      ∃ e, objectStructLoop step d members v = Except.error e := by
  intro members
  induction members with
  | nil => intro d v h; simp at h
  | cons m rest ih =>
    intro d v h
    obtain ⟨k1, x1⟩ := m
    cases hstep : step d k1 x1 v with
    | error e => exact ⟨e, by simp [objectStructLoop, hstep]⟩
    | ok r =>
      obtain ⟨v1, d1⟩ := r
      rcases List.mem_cons.1 h with heq | hmem
      · obtain ⟨e, he⟩ := habort d v
        have h1 : k = k1 := congrArg Prod.fst heq
        have h2 : x = x1 := congrArg Prod.snd heq
        subst h1; subst h2
        rw [he] at hstep
        exact absurd hstep (by simp)
      · obtain ⟨e, he⟩ := ih d1 v1 hmem
        exact ⟨e, by simp [objectStructLoop, hstep, he]⟩

/-- A value on which `StrArray.UnmarshalJSON` fails for every receiver makes the store of a
`StrArray` field fail. -/
theorem storeField_StrArray_abort (f : Field) (hf : f.isStrArray = true) (x : JSON)
    (hx : ∀ sa, ∃ e, StrArray.UnmarshalJSON sa (Data.doc x) = (sa, some e))
    (d : decodeState) (v : DevContainerConfig) :
    ∃ e, DevContainerConfig.storeField f d x v = Except.error e := by
  cases f <;> simp [Field.isStrArray] at hf
  all_goals
    simp only [DevContainerConfig.storeField, storeUnmarshaler]
  · obtain ⟨e, he⟩ := hx v.InitializeCommand
    exact ⟨e, by simp [he, Decoded.map]⟩
  · obtain ⟨e, he⟩ := hx v.OnCreateCommand
    exact ⟨e, by simp [he, Decoded.map]⟩
  · obtain ⟨e, he⟩ := hx v.UpdateContentCommand
    exact ⟨e, by simp [he, Decoded.map]⟩
  · obtain ⟨e, he⟩ := hx v.PostCreateCommand
    exact ⟨e, by simp [he, Decoded.map]⟩
  · obtain ⟨e, he⟩ := hx v.PostStartCommand
    exact ⟨e, by simp [he, Decoded.map]⟩
  · obtain ⟨e, he⟩ := hx v.PostAttachCommand
    exact ⟨e, by simp [he, Decoded.map]⟩
  · obtain ⟨e, he⟩ := hx v.ComposeContainer.DockerComposeFile
    exact ⟨e, by simp [he, Decoded.map]⟩

/-- The same for the `StrIntArray` field. -/
theorem storeField_StrIntArray_abort (f : Field) (hf : f.isStrIntArray = true) (x : JSON)
    (hx : ∀ sa, ∃ e, StrIntArray.UnmarshalJSON sa (Data.doc x) = (sa, some e))
    (d : decodeState) (v : DevContainerConfig) :
    ∃ e, DevContainerConfig.storeField f d x v = Except.error e := by
  cases f <;> simp [Field.isStrIntArray] at hf
  simp only [DevContainerConfig.storeField, storeUnmarshaler]
  obtain ⟨e, he⟩ := hx v.NonComposeBase.AppPorts
  exact ⟨e, by simp [he, Decoded.map]⟩

/-- A manifest with a member whose store fails in every state is not decoded. -/
theorem UnmarshalConfig_abort (members : List (String × JSON)) (k : String) (x : JSON)
    (hmem : (k, x) ∈ members)
    (habort : ∀ d v, ∃ e, DevContainerConfig.step d k x v = Except.error e)
    (v : DevContainerConfig) :
    ∃ e, json.UnmarshalConfig (Data.doc (JSON.obj members)) v = Except.error e := by
  obtain ⟨e, he⟩ := objectStructLoop_abort DevContainerConfig.step k x habort members
    { savedError := none } v hmem
  exact ⟨e, by simp [json.UnmarshalConfig, DevContainerConfig.store, storeStruct, he]⟩

/-- A `build` object with a member that selects `CacheFrom` and on whose value
`StrArray.UnmarshalJSON` fails for every receiver makes the store of the `Build` field
fail. -/
theorem storeField_Build_abort (bms : List (String × JSON)) (bkey : String) (x : JSON)
    (hkey : findField BuildOptions.fields BuildOptions.Field.wire bkey =
      some BuildOptions.Field.CacheFrom)
    (hmem : (bkey, x) ∈ bms)
    (hx : ∀ sa, ∃ e, StrArray.UnmarshalJSON sa (Data.doc x) = (sa, some e))
    (d : decodeState) (v : DevContainerConfig) :
    ∃ e, DevContainerConfig.storeField Field.Build d (JSON.obj bms) v = Except.error e := by
  have hstep : ∀ (d1 : decodeState) (b : BuildOptions),
      ∃ e, BuildOptions.step d1 bkey x b = Except.error e := by
    intro d1 b
    obtain ⟨e, he⟩ := hx b.CacheFrom
    exact ⟨e, by simp [BuildOptions.step, hkey, storeUnmarshaler, he, Decoded.map]⟩
  obtain ⟨e, he⟩ := objectStructLoop_abort BuildOptions.step bkey x hstep bms d
    v.DockerfileContainer.Build hmem
  exact ⟨e, by
    simp [DevContainerConfig.storeField, BuildOptions.store, storeStruct, he, Decoded.map]⟩

/-- What a successful `Decoded.map` came from. -/
theorem Decoded_map_ok {α β : Type} {f : α → β} {r : Decoded α} {b : β} {d : decodeState}
    (h : Decoded.map f r = Except.ok (b, d)) : ∃ a, r = Except.ok (a, d) ∧ b = f a := by
  cases r with
  | error e => simp [Decoded.map] at h
  | ok p =>
    obtain ⟨a, d1⟩ := p
    simp only [Decoded.map, Except.ok.injEq, Prod.mk.injEq] at h
    exact ⟨a, by rw [h.2], h.1.symm⟩

/-- Storing into another field leaves a lifecycle command as it was. -/
theorem storeField_command (f : Field) (hf : f.isLifecycle = true) (g : Field) (hg : g ≠ f)
    (d : decodeState) (x : JSON) (v v1 : DevContainerConfig) (d1 : decodeState)
    (h : DevContainerConfig.storeField g d x v = Except.ok (v1, d1)) :
    v1.command f = v.command f := by
  cases f <;> simp [Field.isLifecycle] at hf <;> cases g <;>
    first
    | exact absurd rfl hg
    | (simp only [DevContainerConfig.storeField] at h
       obtain ⟨a, -, rfl⟩ := Decoded_map_ok h
       rfl)

/-- A manifest object none of whose keys selects a lifecycle field leaves that command as
it was. -/
theorem objectStructLoop_command (f : Field) (hf : f.isLifecycle = true) :
    ∀ (members : List (String × JSON)) (d : decodeState) (v v1 : DevContainerConfig)
      (d1 : decodeState), (∀ m ∈ members, findField fields Field.wire m.1 ≠ some f) →
      objectStructLoop DevContainerConfig.step d members v = Except.ok (v1, d1) →
      v1.command f = v.command f := by
  intro members
  induction members with
  | nil =>
    intro d v v1 d1 _ h
    simp only [objectStructLoop, Except.ok.injEq, Prod.mk.injEq] at h
    rw [h.1]
  | cons m rest ih =>
    intro d v v1 d1 hkeys h
    obtain ⟨k, x⟩ := m
    cases hstep : DevContainerConfig.step d k x v with
    | error e => simp [objectStructLoop, hstep] at h
    | ok r =>
      obtain ⟨v2, d2⟩ := r
      simp only [objectStructLoop, hstep] at h
      have h1 := ih d2 v2 v1 d1 (fun m hm => hkeys m (List.mem_cons_of_mem _ hm)) h
      rw [h1]
      have hk := hkeys (k, x) (List.mem_cons_self _ _)
      simp only [DevContainerConfig.step] at hstep
      cases hfind : findField fields Field.wire k with
      | none =>
        simp only [hfind, Except.ok.injEq, Prod.mk.injEq] at hstep
        rw [hstep.1]
      | some g =>
        simp only [hfind] at hstep
        exact storeField_command f hf g (fun hgf => hk (by simp [hfind, hgf])) d x v v2 d2 hstep

/-- The element loop on `json.Number` slots fails when some element is a JSON string that
is not a number literal. -/
theorem arrayLoop_storeNumber_abort (s : String) (hs : isValidNumber s = false) :
    ∀ (xs : List JSON) (d : decodeState) (backing : List json.Number), JSON.str s ∈ xs →
      ∃ e, arrayLoop storeNumber "" d xs backing = Except.error e := by
  intro xs
  induction xs with
  | nil => intro d backing h; simp at h
  | cons x xs ih =>
    intro d backing h
    cases hx : storeNumber d x (backing.headD "") with
    | error e => exact ⟨e, by simp only [arrayLoop, hx]⟩
    | ok r =>
      obtain ⟨y, d1⟩ := r
      rcases List.mem_cons.1 h with heq | hmem
      · subst heq
        simp [storeNumber, hs] at hx
      · obtain ⟨e, he⟩ := ih d1 backing.tail hmem
        exact ⟨e, by simp only [arrayLoop, hx, he]⟩

/-! ## The union decoders on strings and arrays of strings -/

/-- C1: for every JSON string `s` and every receiver, `StrArray.UnmarshalJSON` on the
document `s` returns no error and sets the receiver to the one-element slice `[s]`, the
text being the one that was read, unchanged. -/
theorem StrArray_UnmarshalJSON_string (sa : StrArray) (s : String) :
    StrArray.UnmarshalJSON sa (Data.doc (JSON.str s)) = (Slice.mk [s] [], none) := by
  simp [StrArray.UnmarshalJSON, json.Unmarshal, valueInterface]

/-- C2: for every array of JSON strings `[s1,...,sn]`, `n ≥ 0`, and every receiver,
`StrArray.UnmarshalJSON` returns no error and sets the receiver to the slice of exactly
those strings, in the same order, duplicates kept, each unchanged; for the empty array it is
the empty slice. -/
theorem StrArray_UnmarshalJSON_strings (sa : StrArray) (ss : List String) :
    StrArray.UnmarshalJSON sa (Data.doc (JSON.arr (ss.map JSON.str))) = (Slice.mk ss [], none) ∧
    (StrArray.UnmarshalJSON sa (Data.doc (JSON.arr (ss.map JSON.str)))).1.toList = ss ∧
    StrArray.UnmarshalJSON sa (Data.doc (JSON.arr [])) = (Slice.mk [] [], none) := by
  have h : StrArray.UnmarshalJSON sa (Data.doc (JSON.arr (ss.map JSON.str))) =
      (Slice.mk ss [], none) := by
    simp [StrArray.UnmarshalJSON, json.Unmarshal, valueInterface, arrayInterface_strings,
      appendStrings_strings]
  refine ⟨h, ?_, ?_⟩
  · rw [h]; rfl
  · simp [StrArray.UnmarshalJSON, json.Unmarshal, valueInterface, arrayInterface,
      appendStrings]

/-- C3 (the code departs from it): on the bare number `3000`, `StrIntArray.UnmarshalJSON`
returns `ErrUnsupportedType` and leaves the receiver; and on every bare number literal it
returns an error and leaves the receiver, because the generic decode hands numbers over as
`float64`, never as `int`, so that the `case int` of the type switch is never taken. -/
theorem StrIntArray_UnmarshalJSON_number_fails :
    StrIntArray.UnmarshalJSON Slice.nil (Data.doc (JSON.num "3000")) =
      (Slice.nil, some ErrUnsupportedType) ∧
    (∀ (sa : StrIntArray) (lit : String),
      ∃ err, StrIntArray.UnmarshalJSON sa (Data.doc (JSON.num lit)) = (sa, some err)) ∧
    (∀ (data : Data) (n : Int), (json.Unmarshal data).1 ≠ Any.int n) := by
  refine ⟨by rfl, ?_, ?_⟩
  · intro sa lit
    by_cases hf : (readDecimal lit).fitsFloat64 = true
    · exact ⟨ErrUnsupportedType, by
        simp [StrIntArray.UnmarshalJSON, json.Unmarshal, valueInterface, convertNumber, hf]⟩
    · exact ⟨Error.UnmarshalTypeError ("number " ++ lit) "float64", by
        simp [StrIntArray.UnmarshalJSON, json.Unmarshal, valueInterface, convertNumber, hf,
          decodeState.saveError]⟩
  · intro data n
    cases data with
    | malformed msg => simp [json.Unmarshal]
    | doc v => simpa [json.Unmarshal] using valueInterface_ne_int _ v n

/-! ## The union decoders on the other shapes -/

/-- C4, as stated, fails: the array `[1e999]` has an element that is not a string, and
`StrArray.UnmarshalJSON` returns the `UnmarshalTypeError` of the generic parser for it, not
`ErrUnsupportedType`. -/
theorem StrArray_UnmarshalJSON_array_out_of_range :
    StrArray.UnmarshalJSON Slice.nil (Data.doc (JSON.arr [JSON.num "1e999"])) =
      (Slice.nil, some (Error.UnmarshalTypeError "number 1e999" "float64")) ∧
    (StrArray.UnmarshalJSON Slice.nil (Data.doc (JSON.arr [JSON.num "1e999"]))).2 ≠
      some ErrUnsupportedType := by
  have h : StrArray.UnmarshalJSON Slice.nil (Data.doc (JSON.arr [JSON.num "1e999"])) =
      (Slice.nil, some (Error.UnmarshalTypeError "number 1e999" "float64")) := by rfl
  refine ⟨h, ?_⟩
  rw [h]
  simp [ErrUnsupportedType]

/-- C4, amended: for every JSON array that has an element that is not a JSON string,
`StrArray.UnmarshalJSON` and `StrIntArray.UnmarshalJSON` both return an error and leave the
receiver; the error is `ErrUnsupportedType` when the number literals of the array are all in
the range of `float64`.  The decode of a manifest fails as a whole when a key selects a
`StrArray` or `StrIntArray` field with such an array: one of the eight fields at top level,
or `cacheFrom` inside a `build` object. -/
theorem union_decoders_array_nonString (xs : List JSON) (h : ∃ x ∈ xs, x.isStr = false) :
    (floatsFitList xs = true →
      (∀ sa : StrArray,
        StrArray.UnmarshalJSON sa (Data.doc (JSON.arr xs)) = (sa, some ErrUnsupportedType)) ∧
      (∀ sa : StrIntArray,
        StrIntArray.UnmarshalJSON sa (Data.doc (JSON.arr xs)) =
          (sa, some ErrUnsupportedType))) ∧
    (∀ sa : Slice String,
      (∃ err, StrArray.UnmarshalJSON sa (Data.doc (JSON.arr xs)) = (sa, some err)) ∧
      (∃ err, StrIntArray.UnmarshalJSON sa (Data.doc (JSON.arr xs)) = (sa, some err))) ∧
    (∀ (members : List (String × JSON)) (key : String) (f : Field) (v : DevContainerConfig),
      findField fields Field.wire key = some f → (f.isStrArray || f.isStrIntArray) = true →
      (key, JSON.arr xs) ∈ members →
      ∃ err, json.UnmarshalConfig (Data.doc (JSON.obj members)) v = Except.error err) ∧
    (∀ (members bms : List (String × JSON)) (key bkey : String) (v : DevContainerConfig),
      findField fields Field.wire key = some Field.Build →
      findField BuildOptions.fields BuildOptions.Field.wire bkey =
        some BuildOptions.Field.CacheFrom →
      (bkey, JSON.arr xs) ∈ bms → (key, JSON.obj bms) ∈ members →
      ∃ err, json.UnmarshalConfig (Data.doc (JSON.obj members)) v = Except.error err) := by
  refine ⟨?_, ?_, ?_, ?_⟩
  · intro hfit
    have hst := arrayInterface_state xs { savedError := none } hfit
    refine ⟨?_, ?_⟩
    · intro sa
      rw [StrArray_array_nonString sa xs h, hst]
      rfl
    · intro sa
      rw [StrIntArray_array_nonString sa xs h, hst]
      rfl
  · intro sa
    exact ⟨⟨_, StrArray_array_nonString sa xs h⟩, ⟨_, StrIntArray_array_nonString sa xs h⟩⟩
  · intro members key f v hkey hf hmem
    refine UnmarshalConfig_abort members key (JSON.arr xs) hmem ?_ v
    intro d v1
    simp only [DevContainerConfig.step, hkey]
    have hf0 : f.isStrArray = true ∨ f.isStrIntArray = true := by simpa using hf
    rcases hf0 with hf1 | hf2
    · exact storeField_StrArray_abort f hf1 _
        (fun sa => ⟨_, StrArray_array_nonString sa xs h⟩) d v1
    · exact storeField_StrIntArray_abort f hf2 _
        (fun sa => ⟨_, StrIntArray_array_nonString sa xs h⟩) d v1
  · intro members bms key bkey v hkey hbkey hbmem hmem
    refine UnmarshalConfig_abort members key (JSON.obj bms) hmem ?_ v
    intro d v1
    simp only [DevContainerConfig.step, hkey]
    exact storeField_Build_abort bms bkey (JSON.arr xs) hbkey hbmem
      (fun sa => ⟨_, StrArray_array_nonString sa xs h⟩) d v1

/-- C4, amended, at the array `["a", 1]`: both decoders return `ErrUnsupportedType`, and
the manifests `{"postCreateCommand": ["a", 1]}`, `{"appPorts": ["a", 1]}` and
`{"build": {"cacheFrom": ["a", 1]}}` are not decoded. -/
theorem union_decoders_array_nonString_witness :
    (∃ x ∈ [JSON.str "a", JSON.num "1"], x.isStr = false) ∧
    floatsFitList [JSON.str "a", JSON.num "1"] = true ∧
    (∀ sa : StrArray,
      StrArray.UnmarshalJSON sa (Data.doc (JSON.arr [JSON.str "a", JSON.num "1"])) =
        (sa, some ErrUnsupportedType)) ∧
    (∀ sa : StrIntArray,
      StrIntArray.UnmarshalJSON sa (Data.doc (JSON.arr [JSON.str "a", JSON.num "1"])) =
        (sa, some ErrUnsupportedType)) ∧
    (∃ err, decodeManifest (Data.doc (JSON.obj
      [("postCreateCommand", JSON.arr [JSON.str "a", JSON.num "1"])])) = Except.error err) ∧
    (∃ err, decodeManifest (Data.doc (JSON.obj
      [("appPorts", JSON.arr [JSON.str "a", JSON.num "1"])])) = Except.error err) ∧
    (∃ err, decodeManifest (Data.doc (JSON.obj
      [("build", JSON.obj [("cacheFrom", JSON.arr [JSON.str "a", JSON.num "1"])])])) =
      Except.error err) :=
  have hw : ∃ x ∈ [JSON.str "a", JSON.num "1"], x.isStr = false :=
    ⟨JSON.num "1", by simp, rfl⟩
  ⟨hw, by rfl,
    ((union_decoders_array_nonString [JSON.str "a", JSON.num "1"] hw).1 (by rfl)).1,
    ((union_decoders_array_nonString [JSON.str "a", JSON.num "1"] hw).1 (by rfl)).2,
    (union_decoders_array_nonString [JSON.str "a", JSON.num "1"] hw).2.2.1 _
      "postCreateCommand" Field.PostCreateCommand DevContainerConfig.zero (by rfl) (by rfl)
      (by simp),
    (union_decoders_array_nonString [JSON.str "a", JSON.num "1"] hw).2.2.1 _
      "appPorts" Field.AppPorts DevContainerConfig.zero (by rfl) (by rfl) (by simp),
    (union_decoders_array_nonString [JSON.str "a", JSON.num "1"] hw).2.2.2 _
      [("cacheFrom", JSON.arr [JSON.str "a", JSON.num "1"])] "build" "cacheFrom"
      DevContainerConfig.zero (by rfl) (by rfl) (by simp) (by simp)⟩

/-- C5, as stated, fails: `1e999` is a JSON number, and `StrArray.UnmarshalJSON` returns the
`UnmarshalTypeError` of the generic parser for it, not `ErrUnsupportedType`. -/
theorem StrArray_UnmarshalJSON_number_out_of_range :
    StrArray.UnmarshalJSON Slice.nil (Data.doc (JSON.num "1e999")) =
      (Slice.nil, some (Error.UnmarshalTypeError "number 1e999" "float64")) ∧
    (StrArray.UnmarshalJSON Slice.nil (Data.doc (JSON.num "1e999"))).2 ≠
      some ErrUnsupportedType := by
  have h : StrArray.UnmarshalJSON Slice.nil (Data.doc (JSON.num "1e999")) =
      (Slice.nil, some (Error.UnmarshalTypeError "number 1e999" "float64")) := by rfl
  refine ⟨h, ?_⟩
  rw [h]
  simp [ErrUnsupportedType]

/-- C5, amended: for every JSON value that is a number, a boolean, an object or null (that
is, neither a string nor an array) and whose number literals are all in the range of
`float64`, `StrArray.UnmarshalJSON` returns `ErrUnsupportedType` and leaves the receiver;
and the decode of the manifest `{"postCreateCommand": {"bad":"shape"}}` fails with
`ErrUnsupportedType`. -/
theorem StrArray_UnmarshalJSON_other (v : JSON) (hs : v.isStr = false) (ha : v.isArr = false)
    (hfit : v.floatsFit = true) :
    (∀ sa : StrArray, StrArray.UnmarshalJSON sa (Data.doc v) = (sa, some ErrUnsupportedType)) ∧
    decodeManifest (Data.doc (JSON.obj
      [("postCreateCommand", JSON.obj [("bad", JSON.str "shape")])])) =
      Except.error ErrUnsupportedType := by
  refine ⟨?_, by rfl⟩
  intro sa
  rw [StrArray_other sa v hs ha, valueInterface_state v _ hfit]
  rfl

/-- C5, amended, at the object `{"bad":"shape"}`. -/
theorem StrArray_UnmarshalJSON_other_witness :
    (JSON.obj [("bad", JSON.str "shape")]).isStr = false ∧
    (JSON.obj [("bad", JSON.str "shape")]).isArr = false ∧
    (JSON.obj [("bad", JSON.str "shape")]).floatsFit = true ∧
    (∀ sa : StrArray,
      StrArray.UnmarshalJSON sa (Data.doc (JSON.obj [("bad", JSON.str "shape")])) =
        (sa, some ErrUnsupportedType)) ∧
    decodeManifest (Data.doc (JSON.obj
      [("postCreateCommand", JSON.obj [("bad", JSON.str "shape")])])) =
      Except.error ErrUnsupportedType :=
  ⟨rfl, rfl, by rfl,
    StrArray_UnmarshalJSON_other (JSON.obj [("bad", JSON.str "shape")]) rfl rfl (by rfl)⟩

/-! ## The decode of the manifest -/

/-- C6, as stated, fails: the decode of `{"postCreateCommand": null}` returns
`ErrUnsupportedType`, while the decode of `{}` succeeds. -/
theorem lifecycle_null_not_absent :
    decodeManifest (Data.doc (JSON.obj [("postCreateCommand", JSON.null)])) =
      Except.error ErrUnsupportedType ∧
    decodeManifest (Data.doc (JSON.obj [])) = Except.ok DevContainerConfig.zero ∧
    decodeManifest (Data.doc (JSON.obj [("postCreateCommand", JSON.null)])) ≠
      decodeManifest (Data.doc (JSON.obj [])) := by
  have h1 : decodeManifest (Data.doc (JSON.obj [("postCreateCommand", JSON.null)])) =
      Except.error ErrUnsupportedType := by rfl
  have h2 : decodeManifest (Data.doc (JSON.obj [])) = Except.ok DevContainerConfig.zero := by
    rfl
  refine ⟨h1, h2, ?_⟩
  rw [h1, h2]
  simp

/-- C6, amended: for each of the six lifecycle command fields, the decode of the manifest
that holds only that field, set to `null`, fails with `ErrUnsupportedType`; the decode of
any manifest in which a key selects the field with the value `null` returns an error; and
when no key of the manifest selects the field, a successful decode leaves the command
empty (the nil slice). -/
theorem lifecycle_null_fails (f : Field) (hf : f.isLifecycle = true) :
    decodeManifest (Data.doc (JSON.obj [(f.wire, JSON.null)])) =
      Except.error ErrUnsupportedType ∧
    (∀ (members : List (String × JSON)) (key : String) (v : DevContainerConfig),
      findField fields Field.wire key = some f → (key, JSON.null) ∈ members →
      ∃ err, json.UnmarshalConfig (Data.doc (JSON.obj members)) v = Except.error err) ∧
    (∀ (members : List (String × JSON)) (v1 : DevContainerConfig),
      (∀ m ∈ members, findField fields Field.wire m.1 ≠ some f) →
      decodeManifest (Data.doc (JSON.obj members)) = Except.ok v1 →
      v1.command f = Slice.nil) := by
  refine ⟨?_, ?_, ?_⟩
  · cases f <;> simp [Field.isLifecycle] at hf <;> rfl
  · intro members key v hkey hmem
    refine UnmarshalConfig_abort members key JSON.null hmem ?_ v
    intro d v1
    simp only [DevContainerConfig.step, hkey]
    refine storeField_StrArray_abort f ?_ _
      (fun sa => ⟨_, StrArray_other sa JSON.null rfl rfl⟩) d v1
    cases f <;> simp [Field.isLifecycle] at hf <;> rfl
  · intro members v1 hkeys h
    simp only [decodeManifest, json.UnmarshalConfig, DevContainerConfig.store,
      storeStruct] at h
    cases hl : objectStructLoop DevContainerConfig.step { savedError := none } members
        DevContainerConfig.zero with
    | error e => simp [hl] at h
    | ok r =>
      obtain ⟨v2, d2⟩ := r
      have hc := objectStructLoop_command f hf members _ _ v2 d2 hkeys hl
      rw [hl] at h
      cases hd : d2.savedError with
      | some e => simp [hd] at h
      | none =>
        simp only [hd, Except.ok.injEq] at h
        rw [← h, hc]
        cases f <;> simp [Field.isLifecycle] at hf <;> rfl

/-- C6, amended, at the field `PostCreateCommand`. -/
theorem lifecycle_null_fails_witness :
    Field.PostCreateCommand.isLifecycle = true ∧
    decodeManifest (Data.doc (JSON.obj [(Field.PostCreateCommand.wire, JSON.null)])) =
      Except.error ErrUnsupportedType ∧
    (∀ (members : List (String × JSON)) (key : String) (v : DevContainerConfig),
      findField fields Field.wire key = some Field.PostCreateCommand →
      (key, JSON.null) ∈ members →
      ∃ err, json.UnmarshalConfig (Data.doc (JSON.obj members)) v = Except.error err) ∧
    (∀ (members : List (String × JSON)) (v1 : DevContainerConfig),
      (∀ m ∈ members, findField fields Field.wire m.1 ≠ some Field.PostCreateCommand) →
      decodeManifest (Data.doc (JSON.obj members)) = Except.ok v1 →
      v1.command Field.PostCreateCommand = Slice.nil) :=
  ⟨rfl, lifecycle_null_fails Field.PostCreateCommand rfl⟩

/-- C7 (the code departs from it): the decode of `{"forwardPorts": [3000, "8080:8081"]}`
fails with the invalid-number error of `json.Number`; and so does, with some error, the
decode of every `forwardPorts` array that holds a JSON string which is not a number
literal. -/
theorem forwardPorts_host_container_fails :
    decodeManifest (Data.doc (JSON.obj
      [("forwardPorts", JSON.arr [JSON.num "3000", JSON.str "8080:8081"])])) =
      Except.error (Error.InvalidNumber "8080:8081") ∧
    (∀ (xs : List JSON) (s : String), JSON.str s ∈ xs → isValidNumber s = false →
      ∃ err, decodeManifest (Data.doc (JSON.obj [("forwardPorts", JSON.arr xs)])) =
        Except.error err) := by
  refine ⟨by rfl, ?_⟩
  intro xs s hmem hs
  cases xs with
  | nil => simp at hmem
  | cons x xs =>
    obtain ⟨e, he⟩ := arrayLoop_storeNumber_abort s hs (x :: xs) { savedError := none } [] hmem
    refine ⟨e, ?_⟩
    have hk : findField fields Field.wire "forwardPorts" = some Field.ForwardPorts := by rfl
    simp [decodeManifest, json.UnmarshalConfig, DevContainerConfig.store, storeStruct,
      objectStructLoop, DevContainerConfig.step, hk, DevContainerConfig.storeField,
      storeSlice, DevContainerConfig.zero, he, Decoded.map]

/-- C8: for every valid JSON number literal `n`, whatever its size or format, the decode of
`{"forwardPorts": [n]}` succeeds and `ForwardPorts` holds exactly the text of `n`. -/
theorem forwardPorts_number_literal (n : String) (_hn : isValidNumber n = true) :
    decodeManifest (Data.doc (JSON.obj [("forwardPorts", JSON.arr [JSON.num n])])) =
      Except.ok { DevContainerConfig.zero with ForwardPorts := Slice.mk [n] [] } := by
  rfl

/-- C8 at a literal far beyond the 64-bit integers and the range of `float64`. -/
theorem forwardPorts_number_literal_witness :
    isValidNumber "-18446744073709551616000.25e+999" = true ∧
    decodeManifest (Data.doc (JSON.obj
      [("forwardPorts", JSON.arr [JSON.num "-18446744073709551616000.25e+999"])])) =
      Except.ok { DevContainerConfig.zero with
        ForwardPorts := Slice.mk ["-18446744073709551616000.25e+999"] [] } :=
  ⟨by rfl, forwardPorts_number_literal "-18446744073709551616000.25e+999" (by rfl)⟩

/-- C9 (the code departs from it): the decode of `{"appPorts": [3000, "8000:8010"]}` fails
with `ErrUnsupportedType`; and the decode of every `appPorts` array that holds a number
returns an error. -/
theorem appPorts_array_number_fails :
    decodeManifest (Data.doc (JSON.obj
      [("appPorts", JSON.arr [JSON.num "3000", JSON.str "8000:8010"])])) =
      Except.error ErrUnsupportedType ∧
    (∀ (xs : List JSON) (lit : String), JSON.num lit ∈ xs →
      ∃ err, decodeManifest (Data.doc (JSON.obj [("appPorts", JSON.arr xs)])) =
        Except.error err) := by
  refine ⟨by rfl, ?_⟩
  intro xs lit hmem
  refine UnmarshalConfig_abort _ "appPorts" (JSON.arr xs) (by simp) ?_ _
  intro d v
  have hk : findField fields Field.wire "appPorts" = some Field.AppPorts := by rfl
  simp only [DevContainerConfig.step, hk]
  exact storeField_StrIntArray_abort Field.AppPorts rfl _
    (fun sa => ⟨_, StrIntArray_array_nonString sa xs ⟨JSON.num lit, hmem, rfl⟩⟩) d v

/-- C10: the compose service name is read from the key `"string"`: for every text `w`, the
decode of `{"dockerComposeFile": ["a.yml","b.yml"], "string": w}` gives
`DockerComposeFile = ["a.yml","b.yml"]` and `Service = w`, and the decode of
`{"service": w}` succeeds and leaves `Service` empty (the whole manifest is the zero
one). -/
theorem compose_service_wire_key (w : String) :
    decodeManifest (Data.doc (JSON.obj
      [("dockerComposeFile", JSON.arr [JSON.str "a.yml", JSON.str "b.yml"]),
       ("string", JSON.str w)])) =
      Except.ok { DevContainerConfig.zero with
        ComposeContainer := { DockerComposeFile := Slice.mk ["a.yml", "b.yml"] [],
                              Service := w, RunServices := Slice.nil } } ∧
    decodeManifest (Data.doc (JSON.obj [("service", JSON.str w)])) =
      Except.ok DevContainerConfig.zero ∧
    DevContainerConfig.zero.ComposeContainer.Service = "" :=
  ⟨by rfl, by rfl, by rfl⟩

/-! ## The two union decoders compared -/

/-- The generic decode of any input never yields a Go `int`. -/
theorem json_Unmarshal_ne_int (data : Data) (n : Int) : (json.Unmarshal data).1 ≠ Any.int n := by
  cases data with
  | malformed msg => simp [json.Unmarshal]
  | doc v => simpa [json.Unmarshal] using valueInterface_ne_int _ v n

/-- The two decoders agree on every input and every receiver. -/
theorem StrIntArray_eq_StrArray (sa : Slice String) (data : Data) :
    StrIntArray.UnmarshalJSON sa data = StrArray.UnmarshalJSON sa data := by
  have hint := json_Unmarshal_ne_int data
  simp only [StrIntArray.UnmarshalJSON, StrArray.UnmarshalJSON]
  rcases hr : json.Unmarshal data with ⟨obj, err⟩
  rw [hr] at hint
  cases err with
  | some e => rfl
  | none =>
    cases obj with
    | int n => exact absurd rfl (hint n)
    | _ => rfl

/-- When `StrArray.UnmarshalJSON` returns an error the receiver is the one it was given. -/
theorem StrArray_error_receiver (sa : StrArray) (data : Data)
    (h : (StrArray.UnmarshalJSON sa data).2 ≠ none) :
    (StrArray.UnmarshalJSON sa data).1 = sa := by
  simp only [StrArray.UnmarshalJSON] at h ⊢
  generalize json.Unmarshal data = r at h ⊢
  obtain ⟨obj, err⟩ := r
  cases err with
  | some e => rfl
  | none =>
    cases obj with
    | string s => simp at h
    | slice l =>
      cases hl : appendStrings l [] with
      | none => simp [hl]
      | some ss => simp [hl] at h
    | _ => rfl

/-- C17: for every input (a bare integer or not: strings, arrays, booleans, null, objects,
numbers, malformed JSON) and every receiver, `StrIntArray.UnmarshalJSON` and
`StrArray.UnmarshalJSON` return the same outcome: the same error and the receiver left, or
success with the same sequence of strings. -/
theorem union_decoders_agree (sa : Slice String) (data : Data) :
    StrIntArray.UnmarshalJSON sa data = StrArray.UnmarshalJSON sa data :=
  StrIntArray_eq_StrArray sa data

/-- C18: for every input and every prior receiver, when `StrArray.UnmarshalJSON` or
`StrIntArray.UnmarshalJSON` returns an error, the receiver after the call is the receiver
before the call. -/
theorem union_decoders_atomic (sa : Slice String) (data : Data) :
    ((StrArray.UnmarshalJSON sa data).2 ≠ none → (StrArray.UnmarshalJSON sa data).1 = sa) ∧
    ((StrIntArray.UnmarshalJSON sa data).2 ≠ none →
      (StrIntArray.UnmarshalJSON sa data).1 = sa) ∧
    (∀ (ss : List String) (x : JSON) (rest : List JSON), x.isStr = false →
      (StrArray.UnmarshalJSON sa (Data.doc (JSON.arr (ss.map JSON.str ++ x :: rest)))).1 = sa ∧
      (StrIntArray.UnmarshalJSON sa
        (Data.doc (JSON.arr (ss.map JSON.str ++ x :: rest)))).1 = sa) := by
  refine ⟨StrArray_error_receiver sa data, ?_, ?_⟩
  · rw [StrIntArray_eq_StrArray]
    exact StrArray_error_receiver sa data
  · intro ss x rest hx
    have hex : ∃ y ∈ ss.map JSON.str ++ x :: rest, y.isStr = false := ⟨x, by simp, hx⟩
    rw [StrIntArray_eq_StrArray, StrArray_array_nonString sa _ hex]
    exact ⟨rfl, rfl⟩

/-- C18 at the array `["a", "b", 1]` and the prior receiver `["old"]`: the call returns an
error and the receiver still holds `["old"]`, not `["a", "b"]`. -/
theorem union_decoders_atomic_witness :
    (StrArray.UnmarshalJSON (Slice.mk ["old"] [])
      (Data.doc (JSON.arr [JSON.str "a", JSON.str "b", JSON.num "1"]))).2 ≠ none ∧
    (StrArray.UnmarshalJSON (Slice.mk ["old"] [])
      (Data.doc (JSON.arr [JSON.str "a", JSON.str "b", JSON.num "1"]))).1 =
      Slice.mk ["old"] [] := by
  have h : (StrArray.UnmarshalJSON (Slice.mk ["old"] [])
      (Data.doc (JSON.arr [JSON.str "a", JSON.str "b", JSON.num "1"]))).2 ≠ none := by
    have h2 : (StrArray.UnmarshalJSON (Slice.mk ["old"] [])
        (Data.doc (JSON.arr [JSON.str "a", JSON.str "b", JSON.num "1"]))).2 =
        some ErrUnsupportedType := by rfl
    rw [h2]; simp
  exact ⟨h, (union_decoders_atomic _ _).1 h⟩

/-! ## The decode of the manifest: zero values, provenance, variants -/

/-- Storing into any field leaves `Origin` as it was. -/
theorem storeField_Origin (g : Field) (d : decodeState) (x : JSON)
    (v v1 : DevContainerConfig) (d1 : decodeState)
    (h : DevContainerConfig.storeField g d x v = Except.ok (v1, d1)) :
    v1.Origin = v.Origin := by
  cases g <;>
    (simp only [DevContainerConfig.storeField] at h
     obtain ⟨a, -, rfl⟩ := Decoded_map_ok h
     rfl)

/-- The decode of the members of a manifest object leaves `Origin` as it was. -/
theorem objectStructLoop_Origin :
    ∀ (members : List (String × JSON)) (d : decodeState) (v v1 : DevContainerConfig)
      (d1 : decodeState),
      objectStructLoop DevContainerConfig.step d members v = Except.ok (v1, d1) →
      v1.Origin = v.Origin := by
  intro members
  induction members with
  | nil =>
    intro d v v1 d1 h
    simp only [objectStructLoop, Except.ok.injEq, Prod.mk.injEq] at h
    rw [h.1]
  | cons m rest ih =>
    intro d v v1 d1 h
    obtain ⟨k, x⟩ := m
    cases hstep : DevContainerConfig.step d k x v with
    | error e => simp [objectStructLoop, hstep] at h
    | ok r =>
      obtain ⟨v2, d2⟩ := r
      simp only [objectStructLoop, hstep] at h
      rw [ih d2 v2 v1 d1 h]
      simp only [DevContainerConfig.step] at hstep
      cases hfind : findField fields Field.wire k with
      | none =>
        simp only [hfind, Except.ok.injEq, Prod.mk.injEq] at hstep
        rw [hstep.1]
      | some g =>
        simp only [hfind] at hstep
        exact storeField_Origin g d x v v2 d2 hstep

/-- C13: the decode of the empty object `{}` succeeds and yields the manifest in which
every field has its zero value: empty texts, nil slices and maps, zero integers, false
booleans (`OverrideCommand` included) and nil commands. -/
theorem decode_empty_object :
    decodeManifest (Data.doc (JSON.obj [])) = Except.ok DevContainerConfig.zero ∧
    DevContainerConfig.zero.OverrideCommand = false ∧
    DevContainerConfig.zero.UpdateRemoteUserUID = false ∧
    DevContainerConfig.zero.Name = "" ∧ DevContainerConfig.zero.WaitFor = "" ∧
    DevContainerConfig.zero.UserEnvProbe = "" ∧ DevContainerConfig.zero.DevPort = 0 ∧
    DevContainerConfig.zero.HostRequirements = { CPUs := 0, Memory := "", Storage := "" } ∧
    DevContainerConfig.zero.ForwardPorts = Slice.nil ∧
    DevContainerConfig.zero.RemoteEnv = Map.nil ∧
    (∀ f : Field, DevContainerConfig.zero.command f = Slice.nil) := by
  refine ⟨by rfl, rfl, rfl, rfl, rfl, rfl, rfl, rfl, rfl, rfl, ?_⟩
  intro f
  cases f <;> rfl

/-- C15: for every input and every manifest that a successful decode is made into, the
`Origin` of the result is the one before the decode; decoding into a fresh manifest
therefore gives the empty `Origin`, whatever keys the input carries. -/
theorem decode_keeps_Origin (data : Data) (v v1 : DevContainerConfig)
    (h : json.UnmarshalConfig data v = Except.ok v1) :
    v1.Origin = v.Origin ∧
    (∀ v2, decodeManifest data = Except.ok v2 → v2.Origin = "") := by
  have key : ∀ (w w1 : DevContainerConfig), json.UnmarshalConfig data w = Except.ok w1 →
      w1.Origin = w.Origin := by
    intro w w1 hw
    cases data with
    | malformed msg => simp [json.UnmarshalConfig] at hw
    | doc item =>
      simp only [json.UnmarshalConfig, DevContainerConfig.store, storeStruct] at hw
      cases item with
      | obj members =>
        simp only at hw
        cases hl : objectStructLoop DevContainerConfig.step { savedError := none } members w with
        | error e => simp [hl] at hw
        | ok r =>
          obtain ⟨w2, d2⟩ := r
          rw [hl] at hw
          cases hd : d2.savedError with
          | some e => simp [hd] at hw
          | none =>
            simp only [hd, Except.ok.injEq] at hw
            rw [← hw]
            exact objectStructLoop_Origin members _ w w2 d2 hl
      | null =>
        simp only [Except.ok.injEq] at hw
        rw [← hw]
      | bool b => simp [mismatch, decodeState.saveError] at hw
      | num lit => simp [mismatch, decodeState.saveError] at hw
      | str s => simp [mismatch, decodeState.saveError] at hw
      | arr xs => simp [mismatch, decodeState.saveError] at hw
  exact ⟨key v v1 h, fun v2 h2 => by
    have := key DevContainerConfig.zero v2 h2
    rw [this]; rfl⟩

/-- C15 at an input that carries the keys `"Origin"`, `"origin"` and `"-"`. -/
theorem decode_keeps_Origin_witness :
    json.UnmarshalConfig (Data.doc (JSON.obj [("Origin", JSON.str "a"),
      ("origin", JSON.str "b"), ("-", JSON.str "c"), ("name", JSON.str "n")]))
      DevContainerConfig.zero = Except.ok { DevContainerConfig.zero with Name := "n" } ∧
    ({ DevContainerConfig.zero with Name := "n" } : DevContainerConfig).Origin =
      DevContainerConfig.zero.Origin ∧
    (∀ v2, decodeManifest (Data.doc (JSON.obj [("Origin", JSON.str "a"),
      ("origin", JSON.str "b"), ("-", JSON.str "c"), ("name", JSON.str "n")])) =
      Except.ok v2 → v2.Origin = "") :=
  ⟨by rfl, decode_keeps_Origin _ DevContainerConfig.zero _ (by rfl)⟩

/-- The element loop on `string` slots stores an array of JSON strings as it is. -/
theorem arrayLoop_storeString_strings (ss : List String) :
    ∀ (d : decodeState) (backing : List String),
      arrayLoop storeString "" d (ss.map JSON.str) backing = Except.ok (ss, d) := by
  induction ss with
  | nil => intro d backing; rfl
  | cons s ss ih =>
    intro d backing
    simp only [List.map_cons, arrayLoop, storeString, ih]

/-- An array of JSON strings decoded into a nil `[]string` gives the slice of them. -/
theorem storeSlice_strings (type : String) (d : decodeState) (ss : List String) :
    storeSlice storeString "" type d (JSON.arr (ss.map JSON.str)) Slice.nil =
      Except.ok (Slice.mk ss [], d) := by
  cases ss with
  | nil => rfl
  | cons s ss =>
    have h := arrayLoop_storeString_strings (s :: ss) d []
    simp only [List.map_cons] at h
    simp only [List.map_cons, storeSlice, h, List.drop_nil]

/-- An array of JSON strings decoded by `StrArray.UnmarshalJSON` gives the slice of them. -/
theorem StrArray_strings (sa : StrArray) (ss : List String) :
    StrArray.UnmarshalJSON sa (Data.doc (JSON.arr (ss.map JSON.str))) =
      (Slice.mk ss [], none) := by
  simp [StrArray.UnmarshalJSON, json.Unmarshal, valueInterface, arrayInterface_strings,
    appendStrings_strings]

/-- C16: for all texts and all lists of texts, the one JSON object that carries `image`,
`dockerFile`, `context`, `build` (with its own `context`), `dockerComposeFile`,
`runServices`, `appPorts`, `mounts` and `runArgs` at top level is decoded without error, and
every corresponding field of the four embedded structs holds its value; the top-level
`context` fills `DockerfileContainer.Context` and the `context` under `build` fills
`Build.Context`. -/
theorem variants_flattened (image dockerFile context buildContext : String)
    (composeFiles runServices appPorts mounts runArgs : List String) :
    decodeManifest (Data.doc (JSON.obj
      [("image", JSON.str image), ("dockerFile", JSON.str dockerFile),
       ("context", JSON.str context),
       ("build", JSON.obj [("context", JSON.str buildContext)]),
       ("dockerComposeFile", JSON.arr (composeFiles.map JSON.str)),
       ("runServices", JSON.arr (runServices.map JSON.str)),
       ("appPorts", JSON.arr (appPorts.map JSON.str)),
       ("mounts", JSON.arr (mounts.map JSON.str)),
       ("runArgs", JSON.arr (runArgs.map JSON.str))])) =
      Except.ok { DevContainerConfig.zero with
        ImageContainer := { Image := image },
        NonComposeBase :=
          { AppPorts := Slice.mk appPorts [], ContainerEnv := Map.nil, ContainerUser := "",
            Mounts := Slice.mk mounts [], RunArgs := Slice.mk runArgs [],
            WorkspaceMount := "" },
        ComposeContainer :=
          { DockerComposeFile := Slice.mk composeFiles [], Service := "",
            RunServices := Slice.mk runServices [] },
        DockerfileContainer :=
          { Dockerfile := dockerFile, Context := context,
            Build := { BuildOptions.zero with Context := buildContext } } } := by
  have k1 : findField fields Field.wire "image" = some Field.Image := by rfl
  have k2 : findField fields Field.wire "dockerFile" = some Field.Dockerfile := by rfl
  have k3 : findField fields Field.wire "context" = some Field.Context := by rfl
  have k4 : findField fields Field.wire "build" = some Field.Build := by rfl
  have k5 : findField fields Field.wire "dockerComposeFile" = some Field.DockerComposeFile := by
    rfl
  have k6 : findField fields Field.wire "runServices" = some Field.RunServices := by rfl
  have k7 : findField fields Field.wire "appPorts" = some Field.AppPorts := by rfl
  have k8 : findField fields Field.wire "mounts" = some Field.Mounts := by rfl
  have k9 : findField fields Field.wire "runArgs" = some Field.RunArgs := by rfl
  have kb : findField BuildOptions.fields BuildOptions.Field.wire "context" =
      some BuildOptions.Field.Context := by rfl
  simp only [decodeManifest, json.UnmarshalConfig, DevContainerConfig.store, storeStruct,
    objectStructLoop, DevContainerConfig.step, k1, k2, k3, k4, k5, k6, k7, k8, k9,
    DevContainerConfig.storeField, storeString, Decoded.map, storeUnmarshaler,
    BuildOptions.store, BuildOptions.step, kb, DevContainerConfig.zero, BuildOptions.zero,
    storeSlice_strings, StrArray_strings, StrIntArray_eq_StrArray]

/-! ## The selection of a field by a key -/

/-- Every field with a wire name is in the field table. -/
theorem fields_complete (f : Field) : f ∈ fields := by
  cases f <;> simp [fields]

/-- No two wire names are equal up to case. -/
theorem folded_wire_nodup : (fields.map (fun f => f.wire.data.map foldRune)).Nodup := by
  decide

/-- Two fields whose wire names are equal up to case are the same field. -/
theorem equalFold_wire_inj (f g : Field)
    (h : f.wire.data.map foldRune = g.wire.data.map foldRune) : f = g :=
  List.inj_on_of_nodup_map folded_wire_nodup (fields_complete f) (fields_complete g) h

/-- A key that equals the wire name of a field up to case selects that field. -/
theorem findField_of_equalFold (f : Field) (key : String)
    (h : equalFold f.wire key = true) : findField fields Field.wire key = some f := by
  have hf : f.wire.data.map foldRune = key.data.map foldRune := by
    simpa [equalFold] using h
  simp only [findField]
  cases h1 : fields.find? (fun g => g.wire == key) with
  | some g =>
    have hg := List.find?_some h1
    have hgk : g.wire = key := by simpa using hg
    have : f = g := equalFold_wire_inj f g (by rw [hf, hgk])
    simp [this]
  | none =>
    cases h2 : fields.find? (fun g => equalFold g.wire key) with
    | none =>
      have := List.find?_eq_none.1 h2 f (fields_complete f)
      exact absurd h this
    | some g =>
      have hg := List.find?_some h2
      have hgk : g.wire.data.map foldRune = key.data.map foldRune := by
        simpa [equalFold] using hg
      have : f = g := equalFold_wire_inj f g (by rw [hf, hgk])
      simp [this]

/-- A member whose store changes nothing can be taken out of the object. -/
theorem objectStructLoop_skip {σ : Type}
    (step : decodeState → String → JSON → σ → Decoded σ) (k : String) (x : JSON)
    (hskip : ∀ d v, step d k x v = Except.ok (v, d)) :
    ∀ (pre post : List (String × JSON)) (d : decodeState) (v : σ),
      objectStructLoop step d (pre ++ (k, x) :: post) v =
        objectStructLoop step d (pre ++ post) v := by
  intro pre
  induction pre with
  | nil =>
    intro post d v
    simp only [List.nil_append, objectStructLoop, hskip]
  | cons m pre ih =>
    intro post d v
    obtain ⟨k1, x1⟩ := m
    simp only [List.cons_append, objectStructLoop]
    cases step d k1 x1 v with
    | error e => rfl
    | ok r =>
      obtain ⟨v1, d1⟩ := r
      exact ih post d1 v1

/-- C11, as stated, fails: the key `"NAME"` sets `Name`, and the top-level key
`"dockerfile"` sets the path of the Dockerfile variant, so the fields do not stay at their
zero values. -/
theorem key_match_ignores_case :
    decodeManifest (Data.doc (JSON.obj [("NAME", JSON.str "x")])) =
      Except.ok { DevContainerConfig.zero with Name := "x" } ∧
    ({ DevContainerConfig.zero with Name := "x" } : DevContainerConfig).Name ≠
      DevContainerConfig.zero.Name ∧
    decodeManifest (Data.doc (JSON.obj [("dockerfile", JSON.str "D")])) =
      Except.ok { DevContainerConfig.zero with
        DockerfileContainer := { Dockerfile := "D", Context := "", Build := BuildOptions.zero } } := by
  refine ⟨by rfl, ?_, by rfl⟩
  simp [DevContainerConfig.zero]

/-- C11, amended: the mapping from keys to fields is not case-sensitive.  For every field
and every key that equals its wire key up to case (`equalFold`, the comparison that
`findField` falls back on), the key selects that field, storing a member under that key
does what storing it under the wire key does, and the manifest that holds only that key is
decoded as the manifest that holds the wire key instead. -/
theorem key_differing_in_case_selects_field (f : Field) (key : String)
    (h : equalFold f.wire key = true) :
    findField fields Field.wire key = some f ∧
    (∀ (d : decodeState) (x : JSON) (v : DevContainerConfig),
      DevContainerConfig.step d key x v = DevContainerConfig.step d f.wire x v) ∧
    (∀ x : JSON, decodeManifest (Data.doc (JSON.obj [(key, x)])) =
      decodeManifest (Data.doc (JSON.obj [(f.wire, x)]))) := by
  have hk := findField_of_equalFold f key h
  have hw : findField fields Field.wire f.wire = some f :=
    findField_of_equalFold f f.wire (by simp [equalFold])
  have hstep : ∀ (d : decodeState) (x : JSON) (v : DevContainerConfig),
      DevContainerConfig.step d key x v = DevContainerConfig.step d f.wire x v := by
    intro d x v
    simp only [DevContainerConfig.step, hk, hw]
  refine ⟨hk, hstep, ?_⟩
  intro x
  simp only [decodeManifest, json.UnmarshalConfig, DevContainerConfig.store, storeStruct,
    objectStructLoop, hstep]

/-- C11, amended, at the field `Name` and the key `"NAME"`. -/
theorem key_differing_in_case_selects_field_witness :
    equalFold Field.Name.wire "NAME" = true ∧
    findField fields Field.wire "NAME" = some Field.Name ∧
    (∀ (d : decodeState) (x : JSON) (v : DevContainerConfig),
      DevContainerConfig.step d "NAME" x v = DevContainerConfig.step d Field.Name.wire x v) ∧
    (∀ x : JSON, decodeManifest (Data.doc (JSON.obj [("NAME", x)])) =
      decodeManifest (Data.doc (JSON.obj [(Field.Name.wire, x)]))) :=
  ⟨by rfl, key_differing_in_case_selects_field Field.Name "NAME" (by rfl)⟩

/-- C12, as stated, fails: `"NAME"` is not a wire key of the manifest, the decode of `{}`
succeeds, and the decode of `{"NAME": 5}` fails. -/
theorem unknown_key_may_select_field :
    "NAME" ∉ fields.map Field.wire ∧
    decodeManifest (Data.doc (JSON.obj [])) = Except.ok DevContainerConfig.zero ∧
    decodeManifest (Data.doc (JSON.obj [("NAME", JSON.num "5")])) =
      Except.error (Error.UnmarshalTypeError "number" "string") := by
  refine ⟨by decide, by rfl, by rfl⟩

/-- C12, amended: for every key that selects no field (it equals no wire key, exactly or up
to case), every value, every manifest object and every place in it, the decode of the
object with the member added is the decode of the object without it: the same error, or
the same manifest; and `{"totallyUnknownField": 123}` is decoded without error to the zero
manifest. -/
theorem unknown_key_ignored (u : String) (h : findField fields Field.wire u = none) :
    (∀ (pre post : List (String × JSON)) (x : JSON) (v : DevContainerConfig),
      json.UnmarshalConfig (Data.doc (JSON.obj (pre ++ (u, x) :: post))) v =
        json.UnmarshalConfig (Data.doc (JSON.obj (pre ++ post))) v) ∧
    decodeManifest (Data.doc (JSON.obj [("totallyUnknownField", JSON.num "123")])) =
      Except.ok DevContainerConfig.zero := by
  refine ⟨?_, by rfl⟩
  intro pre post x v
  have hskip : ∀ (d : decodeState) (w : DevContainerConfig),
      DevContainerConfig.step d u x w = Except.ok (w, d) := by
    intro d w
    simp only [DevContainerConfig.step, h]
  simp only [json.UnmarshalConfig, DevContainerConfig.store, storeStruct,
    objectStructLoop_skip DevContainerConfig.step u x hskip pre post]

/-- C12, amended, at the key `"totallyUnknownField"`. -/
theorem unknown_key_ignored_witness :
    findField fields Field.wire "totallyUnknownField" = none ∧
    (∀ (pre post : List (String × JSON)) (x : JSON) (v : DevContainerConfig),
      json.UnmarshalConfig (Data.doc (JSON.obj (pre ++ ("totallyUnknownField", x) :: post))) v =
        json.UnmarshalConfig (Data.doc (JSON.obj (pre ++ post))) v) ∧
    decodeManifest (Data.doc (JSON.obj [("totallyUnknownField", JSON.num "123")])) =
      Except.ok DevContainerConfig.zero :=
  ⟨by rfl, unknown_key_ignored "totallyUnknownField" (by rfl)⟩

/-! ## The outcomes of the union decoders -/

mutual
/-- Once an error is saved the generic decode leaves the state as it is. -/
theorem valueInterface_saved : ∀ (v : JSON) (d : decodeState) (e : Error),
    d.savedError = some e → (valueInterface d v).2 = d
  | JSON.null, d, e, _ => by simp [valueInterface]
  | JSON.bool _, d, e, _ => by simp [valueInterface]
  | JSON.str _, d, e, _ => by simp [valueInterface]
  | JSON.num lit, d, e, h => by
    by_cases hf : (readDecimal lit).fitsFloat64 = true <;>
      simp [valueInterface, convertNumber, hf, decodeState.saveError, h]
  | JSON.arr elems, d, e, h => by
    simp [valueInterface, arrayInterface_saved elems d e h]
  | JSON.obj members, d, e, h => by
    simp [valueInterface, objectInterface_saved members d [] e h]
/-- The same for the elements of an array. -/
theorem arrayInterface_saved : ∀ (xs : List JSON) (d : decodeState) (e : Error),
    d.savedError = some e → (arrayInterface d xs).2 = d
  | [], d, e, _ => by simp [arrayInterface]
  | x :: xs, d, e, h => by
    simp [arrayInterface, valueInterface_saved x d e h, arrayInterface_saved xs d e h]
/-- The same for the members of an object. -/
theorem objectInterface_saved : ∀ (ms : List (String × JSON)) (d : decodeState)
    (m : List (String × Any)) (e : Error),
    d.savedError = some e → (objectInterface d ms m).2 = d
  | [], d, m, e, _ => by simp [objectInterface]
  | (k, x) :: rest, d, m, e, h => by
    simp [objectInterface, valueInterface_saved x d e h,
      objectInterface_saved rest d _ e h]
end

mutual
/-- A document with a number literal out of the range of `float64` is decoded with the
`UnmarshalTypeError` of such a number saved. -/
theorem valueInterface_unfit : ∀ (v : JSON), v.floatsFit = false →
    ∃ lit, (valueInterface { savedError := none } v).2.savedError =
      some (Error.UnmarshalTypeError ("number " ++ lit) "float64")
  | JSON.null, h => by simp [JSON.floatsFit] at h
  | JSON.bool _, h => by simp [JSON.floatsFit] at h
  | JSON.str _, h => by simp [JSON.floatsFit] at h
  | JSON.num lit, h => by
    simp only [JSON.floatsFit] at h
    exact ⟨lit, by simp [valueInterface, convertNumber, h, decodeState.saveError]⟩
  | JSON.arr elems, h => by
    simp only [JSON.floatsFit] at h
    obtain ⟨lit, hl⟩ := arrayInterface_unfit elems h
    exact ⟨lit, by simpa [valueInterface] using hl⟩
  | JSON.obj members, h => by
    simp only [JSON.floatsFit] at h
    obtain ⟨lit, hl⟩ := objectInterface_unfit members [] h
    exact ⟨lit, by simpa [valueInterface] using hl⟩
/-- The same for the elements of an array. -/
theorem arrayInterface_unfit : ∀ (xs : List JSON), floatsFitList xs = false →
    ∃ lit, (arrayInterface { savedError := none } xs).2.savedError =
      some (Error.UnmarshalTypeError ("number " ++ lit) "float64")
  | [], h => by simp [floatsFitList] at h
  | x :: xs, h => by
    cases hx : x.floatsFit with
    | true =>
      have hxs : floatsFitList xs = false := by simpa [floatsFitList, hx] using h
      obtain ⟨lit, hl⟩ := arrayInterface_unfit xs hxs
      exact ⟨lit, by simpa [arrayInterface, valueInterface_state x _ hx] using hl⟩
    | false =>
      obtain ⟨lit, hl⟩ := valueInterface_unfit x hx
      refine ⟨lit, ?_⟩
      simp only [arrayInterface]
      rw [arrayInterface_saved xs _ _ hl]
      exact hl
/-- The same for the members of an object. -/
theorem objectInterface_unfit : ∀ (ms : List (String × JSON)) (m : List (String × Any)),
    floatsFitMembers ms = false →
    ∃ lit, (objectInterface { savedError := none } ms m).2.savedError =
      some (Error.UnmarshalTypeError ("number " ++ lit) "float64")
  | [], m, h => by simp [floatsFitMembers] at h
  | (k, x) :: rest, m, h => by
    cases hx : x.floatsFit with
    | true =>
      have hr : floatsFitMembers rest = false := by simpa [floatsFitMembers, hx] using h
      obtain ⟨lit, hl⟩ := objectInterface_unfit rest (setEntry k
        (valueInterface { savedError := none } x).1 m) hr
      exact ⟨lit, by simpa [objectInterface, valueInterface_state x _ hx] using hl⟩
    | false =>
      obtain ⟨lit, hl⟩ := valueInterface_unfit x hx
      refine ⟨lit, ?_⟩
      simp only [objectInterface]
      rw [objectInterface_saved rest _ _ _ hl]
      exact hl
end

/-- On a well-formed document whose numbers are all in range, `StrArray.UnmarshalJSON`
succeeds or returns `ErrUnsupportedType` with the receiver left. -/
theorem StrArray_fit_outcome (sa : StrArray) (v : JSON) (h : v.floatsFit = true) :
    (StrArray.UnmarshalJSON sa (Data.doc v)).2 = none ∨
      StrArray.UnmarshalJSON sa (Data.doc v) = (sa, some ErrUnsupportedType) := by
  have hs := valueInterface_state v { savedError := none } h
  simp only [StrArray.UnmarshalJSON, json.Unmarshal, hs]
  cases (valueInterface { savedError := none } v).1 with
  | string s => left; rfl
  | slice l =>
    cases hl : appendStrings l [] with
    | none => right; simp [hl]
    | some ss => left; simp [hl]
  | _ => right; rfl

/-- On a well-formed document with a number out of range, `StrArray.UnmarshalJSON` returns
the `UnmarshalTypeError` of the generic parser with the receiver left. -/
theorem StrArray_unfit_outcome (sa : StrArray) (v : JSON) (h : v.floatsFit = false) :
    ∃ lit, StrArray.UnmarshalJSON sa (Data.doc v) =
      (sa, some (Error.UnmarshalTypeError ("number " ++ lit) "float64")) := by
  obtain ⟨lit, hl⟩ := valueInterface_unfit v h
  exact ⟨lit, by simp only [StrArray.UnmarshalJSON, json.Unmarshal, hl]⟩

/-- C19, as stated, fails: `{"n": 1e999}` is well-formed JSON, and `StrIntArray.UnmarshalJSON`
returns for it an error that is neither `ErrUnsupportedType` nor a syntax error. -/
theorem union_decoders_wellformed_other_error :
    StrIntArray.UnmarshalJSON Slice.nil (Data.doc (JSON.obj [("n", JSON.num "1e999")])) =
      (Slice.nil, some (Error.UnmarshalTypeError "number 1e999" "float64")) ∧
    Error.UnmarshalTypeError "number 1e999" "float64" ≠ ErrUnsupportedType ∧
    (∀ msg, Error.UnmarshalTypeError "number 1e999" "float64" ≠ Error.SyntaxError msg) := by
  refine ⟨by rfl, by simp [ErrUnsupportedType], by simp⟩

/-- C19, amended: for every receiver, the outcome of `StrArray.UnmarshalJSON` and of
`StrIntArray.UnmarshalJSON` is one of four.  On input that is not well-formed JSON it is
the syntax error of the generic parser, unchanged; on a well-formed document with a number
literal outside the range of `float64` it is the `UnmarshalTypeError` of the generic parser,
unchanged; on every other well-formed document it is success or `ErrUnsupportedType`.  In
all the error cases the receiver is left. -/
theorem union_decoders_outcomes (sa : Slice String) :
    (∀ msg : String,
      StrArray.UnmarshalJSON sa (Data.malformed msg) = (sa, some (Error.SyntaxError msg)) ∧
      StrIntArray.UnmarshalJSON sa (Data.malformed msg) = (sa, some (Error.SyntaxError msg))) ∧
    (∀ v : JSON, v.floatsFit = false →
      ∃ lit, StrArray.UnmarshalJSON sa (Data.doc v) =
          (sa, some (Error.UnmarshalTypeError ("number " ++ lit) "float64")) ∧
        StrIntArray.UnmarshalJSON sa (Data.doc v) =
          (sa, some (Error.UnmarshalTypeError ("number " ++ lit) "float64"))) ∧
    (∀ v : JSON, v.floatsFit = true →
      ((StrArray.UnmarshalJSON sa (Data.doc v)).2 = none ∨
        StrArray.UnmarshalJSON sa (Data.doc v) = (sa, some ErrUnsupportedType)) ∧
      ((StrIntArray.UnmarshalJSON sa (Data.doc v)).2 = none ∨
        StrIntArray.UnmarshalJSON sa (Data.doc v) = (sa, some ErrUnsupportedType))) := by
  refine ⟨?_, ?_, ?_⟩
  · intro msg
    rw [StrIntArray_eq_StrArray]
    exact ⟨rfl, rfl⟩
  · intro v hv
    obtain ⟨lit, hl⟩ := StrArray_unfit_outcome sa v hv
    exact ⟨lit, hl, by rw [StrIntArray_eq_StrArray]; exact hl⟩
  · intro v hv
    rw [StrIntArray_eq_StrArray]
    exact ⟨StrArray_fit_outcome sa v hv, StrArray_fit_outcome sa v hv⟩

/-! ## The errors of the decode of the manifest -/

/-- An `UnmarshalTypeError` is one of the errors of a decode. -/
theorem typeError_known (value type : String) : (Error.UnmarshalTypeError value type).Known :=
  Or.inr (Or.inl ⟨value, type, rfl⟩)

/-- Saving such an error keeps the state to those errors. -/
theorem saveError_known (d : decodeState) (e : Error) (hd : d.Known) (he : e.Known) :
    (d.saveError e).Known := by
  intro e1 h1
  cases hs : d.savedError with
  | none =>
    simp only [decodeState.saveError, hs, Option.some.injEq] at h1
    rw [← h1]; exact he
  | some e0 =>
    simp only [decodeState.saveError, hs] at h1
    exact hd e1 (hs.trans h1)

/-- A type mismatch keeps the state to those errors. -/
theorem mismatch_known {α : Type} (d : decodeState) (item : JSON) (type : String) (v : α)
    (hd : d.Known) : (mismatch d item type v).Known :=
  saveError_known d _ hd (typeError_known _ _)

/-- A field update keeps the outcome to those errors. -/
theorem Decoded_map_known {α β : Type} (f : α → β) (r : Decoded α) (h : r.Known) :
    (Decoded.map f r).Known := by
  cases r with
  | error e => exact h
  | ok p => exact h

/-- The decode into a `string` keeps to those errors. -/
theorem storeString_known : StoreKnown storeString := by
  intro d x v hd
  cases x <;> first | exact hd | exact mismatch_known d _ _ v hd

/-- The decode into a `bool` keeps to those errors. -/
theorem storeBool_known : StoreKnown storeBool := by
  intro d x v hd
  cases x <;> first | exact hd | exact mismatch_known d _ _ v hd

/-- The decode into an `int` keeps to those errors. -/
theorem storeInt_known : StoreKnown storeInt := by
  intro d x v hd
  cases x with
  | num lit =>
    simp only [storeInt]
    cases strconv.ParseInt lit with
    | some n => exact hd
    | none => exact saveError_known d _ hd (typeError_known _ _)
  | null => exact hd
  | bool b => exact mismatch_known d _ _ v hd
  | str s => exact mismatch_known d _ _ v hd
  | arr xs => exact mismatch_known d _ _ v hd
  | obj ms => exact mismatch_known d _ _ v hd

/-- The decode into a `json.Number` keeps to those errors. -/
theorem storeNumber_known : StoreKnown storeNumber := by
  intro d x v hd
  cases x with
  | num lit => exact hd
  | str s =>
    simp only [storeNumber]
    cases isValidNumber s with
    | true => exact hd
    | false => exact Or.inr (Or.inr ⟨s, rfl⟩)
  | null => exact hd
  | bool b => exact mismatch_known d _ _ v hd
  | arr xs => exact mismatch_known d _ _ v hd
  | obj ms => exact mismatch_known d _ _ v hd

/-- A decode state without a saved error. -/
theorem decodeState_eq_none (d : decodeState) (h : d.savedError = none) :
    d = { savedError := none } := by
  cases d
  simp only at h
  rw [h]

/-- The generic decode of a value keeps the state to those errors. -/
theorem valueInterface_known (v : JSON) (d : decodeState) (hd : d.Known) :
    (valueInterface d v).2.Known := by
  cases hs : d.savedError with
  | some e => rw [valueInterface_saved v d e hs]; exact hd
  | none =>
    have hd0 := decodeState_eq_none d hs
    subst hd0
    cases hf : v.floatsFit with
    | true => rw [valueInterface_state v _ hf]; exact hd
    | false =>
      obtain ⟨lit, hl⟩ := valueInterface_unfit v hf
      intro e he
      rw [hl] at he
      simp only [Option.some.injEq] at he
      rw [← he]; exact typeError_known _ _

/-- The generic decode of an array keeps the state to those errors. -/
theorem arrayInterface_known (xs : List JSON) (d : decodeState) (hd : d.Known) :
    (arrayInterface d xs).2.Known := by
  cases hs : d.savedError with
  | some e => rw [arrayInterface_saved xs d e hs]; exact hd
  | none =>
    have hd0 := decodeState_eq_none d hs
    subst hd0
    cases hf : floatsFitList xs with
    | true => rw [arrayInterface_state xs _ hf]; exact hd
    | false =>
      obtain ⟨lit, hl⟩ := arrayInterface_unfit xs hf
      intro e he
      rw [hl] at he
      simp only [Option.some.injEq] at he
      rw [← he]; exact typeError_known _ _

/-- The generic decode of an object keeps the state to those errors. -/
theorem objectInterface_known (ms : List (String × JSON)) (m : List (String × Any))
    (d : decodeState) (hd : d.Known) : (objectInterface d ms m).2.Known := by
  cases hs : d.savedError with
  | some e => rw [objectInterface_saved ms d m e hs]; exact hd
  | none =>
    have hd0 := decodeState_eq_none d hs
    subst hd0
    cases hf : floatsFitMembers ms with
    | true => rw [objectInterface_state ms _ m hf]; exact hd
    | false =>
      obtain ⟨lit, hl⟩ := objectInterface_unfit ms m hf
      intro e he
      rw [hl] at he
      simp only [Option.some.injEq] at he
      rw [← he]; exact typeError_known _ _

/-- The decode into an `interface{}` keeps to those errors. -/
theorem storeInterface_known : StoreKnown storeInterface := by
  intro d x v hd
  cases x with
  | null => exact hd
  | bool b => exact hd
  | str s => exact hd
  | num lit =>
    simp only [storeInterface, convertNumber]
    by_cases hf : (readDecimal lit).fitsFloat64 = true
    · simp only [hf, if_true]; exact hd
    · simp only [hf]; exact saveError_known d _ hd (typeError_known _ _)
  | arr xs => exact arrayInterface_known xs d hd
  | obj ms => exact objectInterface_known ms [] d hd

/-- The element loop keeps to those errors when the decode of an element does. -/
theorem arrayLoop_known {α : Type} (store : decodeState → JSON → α → Decoded α) (zero : α)
    (hs : StoreKnown store) :
    ∀ (xs : List JSON) (d : decodeState) (backing : List α), d.Known →
      (arrayLoop store zero d xs backing).Known := by
  intro xs
  induction xs with
  | nil => intro d backing hd; exact hd
  | cons x xs ih =>
    intro d backing hd
    have h1 := hs d x (backing.headD zero) hd
    simp only [arrayLoop]
    cases hx : store d x (backing.headD zero) with
    | error e => rw [hx] at h1; exact h1
    | ok r =>
      obtain ⟨y, d1⟩ := r
      rw [hx] at h1
      have h2 := ih d1 backing.tail h1
      dsimp only
      cases hl : arrayLoop store zero d1 xs backing.tail with
      | error e => rw [hl] at h2; exact h2
      | ok r2 =>
        obtain ⟨ys, d2⟩ := r2
        rw [hl] at h2; exact h2

/-- The decode into a slice keeps to those errors when the decode of an element does. -/
theorem storeSlice_known {α : Type} (store : decodeState → JSON → α → Decoded α) (zero : α)
    (type : String) (hs : StoreKnown store) : StoreKnown (storeSlice store zero type) := by
  intro d x v hd
  cases x with
  | null => exact hd
  | bool b => exact mismatch_known d _ _ v hd
  | num lit => exact mismatch_known d _ _ v hd
  | str s => exact mismatch_known d _ _ v hd
  | obj ms => exact mismatch_known d _ _ v hd
  | arr xs =>
    cases xs with
    | nil => exact hd
    | cons y ys =>
      simp only [storeSlice]
      generalize (match v with
        | Slice.nil => []
        | Slice.mk elems spare => elems ++ spare) = backing
      have h1 := arrayLoop_known store zero hs (y :: ys) d backing hd
      cases hl : arrayLoop store zero d (y :: ys) backing with
      | error e => rw [hl] at h1; exact h1
      | ok r =>
        obtain ⟨zs, d1⟩ := r
        rw [hl] at h1; exact h1

/-- The member loop on a map keeps to those errors when the decode of an element does. -/
theorem objectMapLoop_known {α : Type} (store : decodeState → JSON → α → Decoded α) (zero : α)
    (hs : StoreKnown store) :
    ∀ (ms : List (String × JSON)) (d : decodeState) (m : List (String × α)), d.Known →
      (objectMapLoop store zero d ms m).Known := by
  intro ms
  induction ms with
  | nil => intro d m hd; exact hd
  | cons p rest ih =>
    intro d m hd
    obtain ⟨k, x⟩ := p
    have h1 := hs d x zero hd
    simp only [objectMapLoop]
    cases hx : store d x zero with
    | error e => rw [hx] at h1; exact h1
    | ok r =>
      obtain ⟨y, d1⟩ := r
      rw [hx] at h1
      exact ih d1 _ h1

/-- The decode into a map keeps to those errors when the decode of an element does. -/
theorem storeMap_known {α : Type} (store : decodeState → JSON → α → Decoded α) (zero : α)
    (type : String) (hs : StoreKnown store) : StoreKnown (storeMap store zero type) := by
  intro d x v hd
  cases x with
  | null => exact hd
  | bool b => exact mismatch_known d _ _ v hd
  | num lit => exact mismatch_known d _ _ v hd
  | str s => exact mismatch_known d _ _ v hd
  | arr xs => exact mismatch_known d _ _ v hd
  | obj ms =>
    simp only [storeMap]
    exact Decoded_map_known _ _ (objectMapLoop_known store zero hs ms d _ hd)

/-- The member loop on a struct keeps to those errors when the store of a member does. -/
theorem objectStructLoop_known {σ : Type}
    (step : decodeState → String → JSON → σ → Decoded σ)
    (hstep : ∀ d k x v, d.Known → (step d k x v).Known) :
    ∀ (ms : List (String × JSON)) (d : decodeState) (v : σ), d.Known →
      (objectStructLoop step d ms v).Known := by
  intro ms
  induction ms with
  | nil => intro d v hd; exact hd
  | cons p rest ih =>
    intro d v hd
    obtain ⟨k, x⟩ := p
    have h1 := hstep d k x v hd
    simp only [objectStructLoop]
    cases hx : step d k x v with
    | error e => rw [hx] at h1; exact h1
    | ok r =>
      obtain ⟨v1, d1⟩ := r
      rw [hx] at h1
      exact ih d1 v1 h1

/-- The decode into a struct keeps to those errors when the store of a member does. -/
theorem storeStruct_known {σ : Type} (step : decodeState → String → JSON → σ → Decoded σ)
    (type : String) (hstep : ∀ d k x v, d.Known → (step d k x v).Known) :
    StoreKnown (storeStruct step type) := by
  intro d x v hd
  cases x with
  | null => exact hd
  | bool b => exact mismatch_known d _ _ v hd
  | num lit => exact mismatch_known d _ _ v hd
  | str s => exact mismatch_known d _ _ v hd
  | arr xs => exact mismatch_known d _ _ v hd
  | obj ms => exact objectStructLoop_known step hstep ms d v hd

/-- An error of `StrArray.UnmarshalJSON` on a well-formed document is one of those. -/
theorem StrArray_error_known (sa : StrArray) (item : JSON) (e : Error)
    (h : (StrArray.UnmarshalJSON sa (Data.doc item)).2 = some e) : e.Known := by
  cases hf : item.floatsFit with
  | true =>
    rcases StrArray_fit_outcome sa item hf with h1 | h1
    · rw [h1] at h; simp at h
    · rw [h1] at h
      simp only [Option.some.injEq] at h
      exact Or.inl h.symm
  | false =>
    obtain ⟨lit, hl⟩ := StrArray_unfit_outcome sa item hf
    rw [hl] at h
    simp only [Option.some.injEq] at h
    rw [← h]; exact typeError_known _ _

/-- The decode into a `StrArray` keeps to those errors. -/
theorem storeStrArray_known : StoreKnown (storeUnmarshaler StrArray.UnmarshalJSON) := by
  intro d x v hd
  have h1 := StrArray_error_known v x
  simp only [storeUnmarshaler]
  generalize StrArray.UnmarshalJSON v (Data.doc x) = r at h1 ⊢
  obtain ⟨v1, err⟩ := r
  cases err with
  | some e => exact h1 e rfl
  | none => exact hd

/-- The decode into a `StrIntArray` keeps to those errors. -/
theorem storeStrIntArray_known : StoreKnown (storeUnmarshaler StrIntArray.UnmarshalJSON) := by
  intro d x v hd
  have h1 := StrArray_error_known v x
  simp only [storeUnmarshaler, StrIntArray_eq_StrArray]
  generalize StrArray.UnmarshalJSON v (Data.doc x) = r at h1 ⊢
  obtain ⟨v1, err⟩ := r
  cases err with
  | some e => exact h1 e rfl
  | none => exact hd

/-- The decode into a `PortAttribute` keeps to those errors. -/
theorem PortAttribute_store_known : StoreKnown PortAttribute.store := by
  refine storeStruct_known _ _ ?_
  intro d k x v hd
  simp only [PortAttribute.step]
  cases findField PortAttribute.fields PortAttribute.Field.wire k with
  | none => exact hd
  | some f =>
    cases f <;> refine Decoded_map_known _ _ ?_ <;>
      first
      | exact storeString_known d x _ hd
      | exact storeBool_known d x _ hd

/-- The decode into a `HostRequirements` keeps to those errors. -/
theorem HostRequirements_store_known : StoreKnown HostRequirements.store := by
  refine storeStruct_known _ _ ?_
  intro d k x v hd
  simp only [HostRequirements.step]
  cases findField HostRequirements.fields HostRequirements.Field.wire k with
  | none => exact hd
  | some f =>
    cases f <;> refine Decoded_map_known _ _ ?_ <;>
      first
      | exact storeString_known d x _ hd
      | exact storeInt_known d x _ hd

/-- The decode into a `BuildOptions` keeps to those errors. -/
theorem BuildOptions_store_known : StoreKnown BuildOptions.store := by
  refine storeStruct_known _ _ ?_
  intro d k x v hd
  simp only [BuildOptions.step]
  cases findField BuildOptions.fields BuildOptions.Field.wire k with
  | none => exact hd
  | some f =>
    cases f <;> refine Decoded_map_known _ _ ?_ <;>
      first
      | exact storeString_known d x _ hd
      | exact storeMap_known storeString "" _ storeString_known d x _ hd
      | exact storeStrArray_known d x _ hd

/-- The store of any field of the manifest keeps to those errors. -/
theorem storeField_known (f : Field) (d : decodeState) (x : JSON) (v : DevContainerConfig)
    (hd : d.Known) : (DevContainerConfig.storeField f d x v).Known := by
  cases f <;> refine Decoded_map_known _ _ ?_ <;>
    first
    | exact storeString_known d x _ hd
    | exact storeBool_known d x _ hd
    | exact storeInt_known d x _ hd
    | exact storeStrArray_known d x _ hd
    | exact storeStrIntArray_known d x _ hd
    | exact storeSlice_known storeString "" _ storeString_known d x _ hd
    | exact storeSlice_known storeNumber "" _ storeNumber_known d x _ hd
    | exact storeMap_known storeString "" _ storeString_known d x _ hd
    | exact storeMap_known storeInterface Any.nil _ storeInterface_known d x _ hd
    | exact storeMap_known PortAttribute.store PortAttribute.zero _
        PortAttribute_store_known d x _ hd
    | exact HostRequirements_store_known d x _ hd
    | exact BuildOptions_store_known d x _ hd

/-- The decode into a `DevContainerConfig` keeps to those errors. -/
theorem DevContainerConfig_store_known : StoreKnown DevContainerConfig.store := by
  refine storeStruct_known _ _ ?_
  intro d k x v hd
  simp only [DevContainerConfig.step]
  cases findField fields Field.wire k with
  | none => exact hd
  | some f => exact storeField_known f d x v hd

/-- C14, as stated, fails: the decodes of `{"name": 5}` and of `{"runArgs": "x"}` return an
`UnmarshalTypeError`, and the decode of `{"forwardPorts": ["a:b"]}` returns the
invalid-number error; these are neither syntax errors nor `ErrUnsupportedType`. -/
theorem decode_other_error_kinds :
    decodeManifest (Data.doc (JSON.obj [("name", JSON.num "5")])) =
      Except.error (Error.UnmarshalTypeError "number" "string") ∧
    decodeManifest (Data.doc (JSON.obj [("runArgs", JSON.str "x")])) =
      Except.error (Error.UnmarshalTypeError "string" "[]string") ∧
    decodeManifest (Data.doc (JSON.obj [("forwardPorts", JSON.arr [JSON.str "a:b"])])) =
      Except.error (Error.InvalidNumber "a:b") ∧
    Error.UnmarshalTypeError "number" "string" ≠ ErrUnsupportedType ∧
    Error.InvalidNumber "a:b" ≠ ErrUnsupportedType ∧
    (∀ msg, Error.UnmarshalTypeError "number" "string" ≠ Error.SyntaxError msg ∧
      Error.InvalidNumber "a:b" ≠ Error.SyntaxError msg) := by
  refine ⟨by rfl, by rfl, by rfl, by simp [ErrUnsupportedType], by simp [ErrUnsupportedType],
    fun msg => ⟨by simp, by simp⟩⟩

/-- C14, amended: the decode of a manifest has four kinds of error.  For every input and
every manifest decoded into, an error that is returned is the syntax error of the parser
(and then the input is not well-formed JSON), or `ErrUnsupportedType`, or an
`UnmarshalTypeError` (a value whose JSON type does not fit the field, or a number out of
range), or the invalid-number error of a `json.Number`. -/
theorem decode_error_kinds (data : Data) (v : DevContainerConfig) (e : Error)
    (h : json.UnmarshalConfig data v = Except.error e) :
    (∃ msg, data = Data.malformed msg ∧ e = Error.SyntaxError msg) ∨
    e = ErrUnsupportedType ∨
    (∃ value type, e = Error.UnmarshalTypeError value type) ∨
    (∃ item, e = Error.InvalidNumber item) := by
  cases data with
  | malformed msg =>
    simp only [json.UnmarshalConfig, Except.error.injEq] at h
    exact Or.inl ⟨msg, rfl, h.symm⟩
  | doc item =>
    right
    have hk : (DevContainerConfig.store { savedError := none } item v).Known :=
      DevContainerConfig_store_known _ item v (by intro e1 h1; simp at h1)
    simp only [json.UnmarshalConfig] at h
    cases hs : DevContainerConfig.store { savedError := none } item v with
    | error e1 =>
      rw [hs] at h hk
      simp only [Except.error.injEq] at h
      rw [← h]; exact hk
    | ok r =>
      obtain ⟨v1, d1⟩ := r
      rw [hs] at h hk
      cases hd : d1.savedError with
      | none => simp [hd] at h
      | some e1 =>
        simp only [hd, Except.error.injEq] at h
        rw [← h]; exact hk e1 hd

/-- C14, amended, at the manifest `{"name": 5}`. -/
theorem decode_error_kinds_witness :
    json.UnmarshalConfig (Data.doc (JSON.obj [("name", JSON.num "5")]))
      DevContainerConfig.zero = Except.error (Error.UnmarshalTypeError "number" "string") ∧
    ((∃ msg, Data.doc (JSON.obj [("name", JSON.num "5")]) = Data.malformed msg ∧
        Error.UnmarshalTypeError "number" "string" = Error.SyntaxError msg) ∨
      Error.UnmarshalTypeError "number" "string" = ErrUnsupportedType ∨
      (∃ value type, Error.UnmarshalTypeError "number" "string" =
        Error.UnmarshalTypeError value type) ∨
      (∃ item, Error.UnmarshalTypeError "number" "string" = Error.InvalidNumber item)) :=
  ⟨by rfl, decode_error_kinds _ DevContainerConfig.zero _ (by rfl)⟩

end DevPod
